import Mathlib

/-!
Verification development for the benchflow Analysis Engine.

This file gives a shallow embedding, in Lean 4, of the comparator
(internal/comparator), its caching wrapper and capacity-only cache, the
query cache with time-to-live (internal/storage/query_optimizer.go), and
the trend analyzer (internal/analyzer/analyzer.go), together with
theorems settling the stated properties of those functions.

Modelling conventions:
* Go int64 values (durations, timestamps in nanoseconds, counters) are
  embedded as `Int`; overflow does not occur within the ranges any
  theorem touches.
* Go float64 values in the comparator are embedded as `GoFloat`, an
  extended-rational type with positive and negative infinity and NaN,
  whose arithmetic follows IEEE 754 semantics for the special values
  while finite arithmetic is exact rational arithmetic (rounding is
  abstracted away; the decimal literals of the source are taken
  exactly). The sign of zero is not tracked: a zero divisor behaves as
  positive zero, matching the reachable uses in the source code, where
  float divisors are obtained from non-negative quantities.
* The trend analyzer never divides by a float that can be zero (each
  division is behind a guard in the source), so it is embedded over
  plain `Rat`.
* `math.Sqrt` and `math.Exp` are irrational on most inputs; they are
  embedded as `ratSqrt` and `expQ`, rational stand-ins that are exact
  where the theorems below evaluate them (`ratSqrt` on perfect squares
  of rationals, `expQ` at zero) and non-negative, respectively a
  truncated Taylor series, elsewhere. No theorem in this file depends
  on the value of either function outside those exact points, beyond
  the fact that `ratSqrt` is non-negative, which also holds for the
  real square root of a non-negative argument.
* `time.Now()` in the query cache is made an explicit `now : Int`
  parameter (nanoseconds), and the MD5 digest of the comparator cache
  key is modelled by its preimage string: the digest is a function of
  that string, so equal preimages give equal digests, which is the
  only direction any theorem here relies on.
-/

/-- Rational stand-in for math.Sqrt on non-negative arguments: exact on
perfect squares of rationals, a non-negative rational approximation
otherwise. Negative arguments (unreachable through the embedded code)
map to 0. -/
def ratSqrt (q : ℚ) : ℚ :=
  if q ≤ 0 then 0 else (Nat.sqrt q.num.toNat : ℚ) / (Nat.sqrt q.den : ℚ)

theorem ratSqrt_nonneg (q : ℚ) : 0 ≤ ratSqrt q := by
  unfold ratSqrt
  split
  · exact le_refl 0
  · exact div_nonneg (Nat.cast_nonneg _) (Nat.cast_nonneg _)

/-- Rational stand-in for math.Exp: the Taylor polynomial of degree 12.
It is exact at 0, the only point where a theorem below evaluates it. -/
def expQ (x : ℚ) : ℚ :=
  (List.range 13).foldl (fun acc k => acc + x ^ k / (Nat.factorial k : ℚ)) 0

theorem expQ_zero : expQ 0 = 1 := by norm_num [expQ, List.range_succ]

/-- Extended rationals embedding Go float64 values: finite values are
exact rationals, plus the two infinities and NaN. -/
inductive GoFloat : Type where
  | fin (q : ℚ)
  | pinf
  | ninf
  | nan
deriving DecidableEq

namespace GoFloat

/-- Negation of a float. -/
def neg : GoFloat → GoFloat
  | fin q => fin (-q)
  | pinf => ninf
  | ninf => pinf
  | nan => nan

/-- IEEE addition: NaN propagates, opposite infinities give NaN. -/
def add : GoFloat → GoFloat → GoFloat
  | nan, _ => nan
  | _, nan => nan
  | pinf, ninf => nan
  | ninf, pinf => nan
  | pinf, _ => pinf
  | _, pinf => pinf
  | ninf, _ => ninf
  | _, ninf => ninf
  | fin a, fin b => fin (a + b)

/-- IEEE subtraction, defined as addition of the negation. -/
def sub (a b : GoFloat) : GoFloat := add a (neg b)

/-- IEEE multiplication: NaN propagates, infinity times zero is NaN. -/
def mul : GoFloat → GoFloat → GoFloat
  | nan, _ => nan
  | _, nan => nan
  | pinf, pinf => pinf
  | pinf, ninf => ninf
  | ninf, pinf => ninf
  | ninf, ninf => pinf
  | pinf, fin b => if b = 0 then nan else if 0 < b then pinf else ninf
  | fin a, pinf => if a = 0 then nan else if 0 < a then pinf else ninf
  | ninf, fin b => if b = 0 then nan else if 0 < b then ninf else pinf
  | fin a, ninf => if a = 0 then nan else if 0 < a then ninf else pinf
  | fin a, fin b => fin (a * b)

/-- IEEE division with a positive zero divisor convention: 0/0 is NaN,
a nonzero finite value divided by zero is a signed infinity. -/
def div : GoFloat → GoFloat → GoFloat
  | nan, _ => nan
  | _, nan => nan
  | pinf, pinf => nan
  | pinf, ninf => nan
  | ninf, pinf => nan
  | ninf, ninf => nan
  | pinf, fin b => if 0 ≤ b then pinf else ninf
  | ninf, fin b => if 0 ≤ b then ninf else pinf
  | fin _, pinf => fin 0
  | fin _, ninf => fin 0
  | fin a, fin b =>
      if b = 0 then (if a = 0 then nan else if 0 < a then pinf else ninf)
      else fin (a / b)

/-- Square root: NaN on NaN and on negative arguments, with the
rational stand-in on non-negative finite arguments. -/
def sqrtF : GoFloat → GoFloat
  | nan => nan
  | pinf => pinf
  | ninf => nan
  | fin q => if q < 0 then nan else fin (ratSqrt q)

/-- Exponential: the rational stand-in on finite arguments. -/
def expF : GoFloat → GoFloat
  | nan => nan
  | pinf => pinf
  | ninf => fin 0
  | fin q => fin (expQ q)

/-- Absolute value. -/
def absF : GoFloat → GoFloat
  | nan => nan
  | pinf => pinf
  | ninf => pinf
  | fin q => fin |q|

/-- IEEE strict less-than: false whenever either side is NaN. -/
def ltF : GoFloat → GoFloat → Bool
  | nan, _ => false
  | _, nan => false
  | fin a, fin b => a < b
  | fin _, pinf => true
  | fin _, ninf => false
  | pinf, _ => false
  | ninf, ninf => false
  | ninf, _ => true

/-- IEEE equality test: false whenever either side is NaN. -/
def beqF : GoFloat → GoFloat → Bool
  | nan, _ => false
  | _, nan => false
  | fin a, fin b => a = b
  | pinf, pinf => true
  | ninf, ninf => true
  | _, _ => false

/-- IEEE greater-or-equal: false whenever either side is NaN. -/
def geF (a b : GoFloat) : Bool := ltF b a || beqF a b

end GoFloat

/-- Embedding of parser.BenchmarkResult. `Time` and `StdDev` are Go
time.Duration values (int64 nanoseconds), `Iterations` an int64. The
`Throughput` and `Metadata` fields are omitted: no embedded function
reads them. -/
structure BenchmarkResult : Type where
  Name : String
  Language : String
  Time : Int
  Iterations : Int
  StdDev : Int
deriving DecidableEq

/-- Embedding of parser.BenchmarkSuite, with `Timestamp` as int64
nanoseconds and `Metadata` omitted as unread. -/
structure BenchmarkSuite : Type where
  Results : List BenchmarkResult
  Language : String
  Timestamp : Int
deriving DecidableEq

/-- Embedding of comparator.BenchmarkComparison. -/
structure BenchmarkComparison : Type where
  Name : String
  Language : String
  Baseline : BenchmarkResult
  Current : BenchmarkResult
  TimeDelta : GoFloat
  IsRegression : Bool
  IsSignificant : Bool
  ConfidenceLevel : ℚ
  TTestPValue : GoFloat
  EffectSize : GoFloat
  RegressionThreshold : ℚ
deriving DecidableEq

/-- Embedding of comparator.ComparisonSummary. -/
structure ComparisonSummary : Type where
  TotalComparisons : Nat
  Regressions : Nat
  Improvements : Nat
  AverageDelta : GoFloat
  MaxDelta : GoFloat
  MinDelta : GoFloat
  SignificantChanges : Nat
deriving DecidableEq

/-- Embedding of comparator.ComparisonStats. -/
structure ComparisonStats : Type where
  ConfidenceLevel : ℚ
  SignificanceLevel : ℚ
  RegressionThreshold : ℚ
deriving DecidableEq

/-- Embedding of comparator.ComparisonResult. -/
structure ComparisonResult : Type where
  Benchmarks : List BenchmarkComparison
  Summary : ComparisonSummary
  Regressions : List String
  Improvements : List String
  Statistics : ComparisonStats
deriving DecidableEq

/-- Embedding of comparator.BasicComparator: the two configuration
knobs. -/
structure BasicComparator : Type where
  ConfidenceLevel : ℚ
  RegressionThreshold : ℚ
deriving DecidableEq

namespace Comparator

open GoFloat

/-- Embedding of comparator.calculateMean over float64 slices. -/
def calculateMean (data : List GoFloat) : GoFloat :=
  if data = [] then fin 0
  else div (data.foldl add (fin 0)) (fin (data.length : ℚ))

/-- Embedding of comparator.calculateStdDev (Bessel-corrected sample
standard deviation, 0 for fewer than two points). -/
def calculateStdDev (data : List GoFloat) (mean : GoFloat) : GoFloat :=
  if data.length ≤ 1 then fin 0
  else
    let varianceSum := data.foldl (fun acc v => add acc (mul (sub v mean) (sub v mean))) (fin 0)
    sqrtF (div varianceSum (fin ((data.length - 1 : Nat) : ℚ)))

/-- Embedding of comparator.CohensDEffect: the classic pooled-variance
formula for Cohen effect size. -/
def CohensDEffect (group1 group2 : List GoFloat) : GoFloat :=
  if group1 = [] ∨ group2 = [] then fin 0
  else
    let mean1 := calculateMean group1
    let mean2 := calculateMean group2
    let std1 := calculateStdDev group1 mean1
    let std2 := calculateStdDev group2 mean2
    let n1 : GoFloat := fin (group1.length : ℚ)
    let n2 : GoFloat := fin (group2.length : ℚ)
    let variance1 := mul std1 std1
    let variance2 := mul std2 std2
    let pooledVariance :=
      div (add (mul (sub n1 (fin 1)) variance1) (mul (sub n2 (fin 1)) variance2))
        (sub (add n1 n2) (fin 2))
    let pooledStdDev := sqrtF pooledVariance
    if beqF pooledStdDev (fin 0) then fin 0
    else div (sub mean2 mean1) pooledStdDev

/-- Embedding of comparator.normalCDF, the rational-polynomial
approximation of the standard normal cumulative distribution
function, with the decimal literals of the source taken exactly. -/
def normalCDF (x : GoFloat) : GoFloat :=
  let b1 : ℚ := 0.319381530
  let b2 : ℚ := -0.356563782
  let b3 : ℚ := 1.781477937
  let b4 : ℚ := -1.821255978
  let b5 : ℚ := 1.330274429
  let p : ℚ := 0.2316419
  let c : ℚ := 0.39894228
  if geF x (fin 0) then
    let t := div (fin 1) (add (fin 1) (mul (fin p) x))
    sub (fin 1)
      (mul (mul (mul (fin c) (expF (div (mul (neg x) x) (fin 2)))) t)
        (add (fin b1) (mul t (add (fin b2) (mul t (add (fin b3) (mul t (add (fin b4) (mul t (fin b5))))))))))
  else
    let t := div (fin 1) (sub (fin 1) (mul (fin p) x))
    mul (mul (mul (fin c) (expF (div (mul (neg x) x) (fin 2)))) t)
      (add (fin b1) (mul t (add (fin b2) (mul t (add (fin b3) (mul t (add (fin b4) (mul t (fin b5)))))))))

/-- Embedding of BasicComparator.GetSignificance: nil or zero-time
inputs report (false, 1); otherwise the simplified t-test of the
source. -/
def GetSignificance (baseline current : Option BenchmarkResult) (confidenceLevel : ℚ) :
    Bool × GoFloat :=
  match baseline, current with
  | some b, some c =>
    if b.Time = 0 ∨ c.Time = 0 then (false, fin 1)
    else
      let baselineTime : GoFloat := fin (b.Time : ℚ)
      let currentTime : GoFloat := fin (c.Time : ℚ)
      let baselineStdDev0 : GoFloat := fin (b.StdDev : ℚ)
      let currentStdDev0 : GoFloat := fin (c.StdDev : ℚ)
      let baselineStdDev :=
        if beqF baselineStdDev0 (fin 0) then mul baselineTime (fin 0.05) else baselineStdDev0
      let currentStdDev :=
        if beqF currentStdDev0 (fin 0) then mul currentTime (fin 0.05) else currentStdDev0
      let pooledStdDev0 :=
        sqrtF (div (add (mul baselineStdDev baselineStdDev) (mul currentStdDev currentStdDev)) (fin 2))
      let pooledStdDev :=
        if beqF pooledStdDev0 (fin 0) then mul baselineTime (fin 0.01) else pooledStdDev0
      let tStat := div (sub currentTime baselineTime) pooledStdDev
      let pValue := mul (fin 2) (sub (fin 1) (normalCDF (absF tStat)))
      let alpha := 1 - confidenceLevel
      (ltF pValue (fin alpha), pValue)
  | _, _ => (false, fin 1)

/-- Embedding of BasicComparator.compareResults for one matched
baseline/current pair. -/
def compareResults (bc : BasicComparator) (baseline current : BenchmarkResult) :
    BenchmarkComparison :=
  let timeDelta :=
    if baseline.Time = 0 then fin 0
    else mul (div (sub (fin (current.Time : ℚ)) (fin (baseline.Time : ℚ))) (fin (baseline.Time : ℚ))) (fin 100)
  let sig := GetSignificance (some baseline) (some current) bc.ConfidenceLevel
  { Name := current.Name
    Language := current.Language
    Baseline := baseline
    Current := current
    TimeDelta := timeDelta
    IsRegression := ltF (fin bc.RegressionThreshold) (div (fin (current.Time : ℚ)) (fin (baseline.Time : ℚ)))
    IsSignificant := sig.1
    ConfidenceLevel := bc.ConfidenceLevel
    TTestPValue := sig.2
    EffectSize := CohensDEffect [fin (baseline.Time : ℚ)] [fin (current.Time : ℚ)]
    RegressionThreshold := bc.RegressionThreshold }

/-- Insertion of one float into an ascending list, the ordering used by
sort.Float64s; the deltas being sorted are always finite, where this
agrees with any comparison sort. -/
def insertF (x : GoFloat) : List GoFloat → List GoFloat
  | [] => [x]
  | y :: ys => if ltF x y then x :: y :: ys else y :: insertF x ys

/-- Ascending sort of float64 slices, modelling sort.Float64s. -/
def sortF (l : List GoFloat) : List GoFloat := l.foldr insertF []

/-- Embedding of BasicComparator.calculateSummary. -/
def calculateSummary (result : ComparisonResult) : ComparisonSummary :=
  let s0 : ComparisonSummary :=
    { TotalComparisons := result.Benchmarks.length
      Regressions := result.Regressions.length
      Improvements := result.Improvements.length
      AverageDelta := fin 0
      MaxDelta := fin 0
      MinDelta := fin 0
      SignificantChanges := 0 }
  if result.Benchmarks = [] then s0
  else
    let sig := (result.Benchmarks.filter (fun comp => comp.IsSignificant = true)).length
    let deltas := sortF (result.Benchmarks.map (fun comp => comp.TimeDelta))
    { s0 with
      SignificantChanges := sig
      MinDelta := deltas.headD (fin 0)
      MaxDelta := deltas.getLastD (fin 0)
      AverageDelta := div (deltas.foldl add (fin 0)) (fin (deltas.length : ℚ)) }

/-- Embedding of the baseline-by-name map of BasicComparator.Compare:
a Go map write for each result in order, so the last result with a
given name wins; the lookup folds over the list keeping the latest
match. -/
def lookupBaseline (rs : List BenchmarkResult) (name : String) : Option BenchmarkResult :=
  rs.foldl (fun acc r => if r.Name = name then some r else acc) none

/-- Loop body accumulator of BasicComparator.Compare: benchmarks,
regression names, improvement names, in emission order. -/
def compareStep (bc : BasicComparator) (baselineResults : List BenchmarkResult)
    (acc : List BenchmarkComparison × List String × List String) (c : BenchmarkResult) :
    List BenchmarkComparison × List String × List String :=
  match lookupBaseline baselineResults c.Name with
  | none => acc
  | some b =>
    if b.Language ≠ c.Language then acc
    else
      let comp := compareResults bc b c
      (acc.1 ++ [comp],
       if comp.IsRegression = true then acc.2.1 ++ [comp.Name] else acc.2.1,
       if comp.IsRegression = false ∧ ltF comp.TimeDelta (fin 0) = true then acc.2.2 ++ [comp.Name]
       else acc.2.2)

/-- Embedding of BasicComparator.Compare. A nil suite is `none`; nil
and empty suites short-circuit to the empty result. -/
def Compare (bc : BasicComparator) (baseline current : Option BenchmarkSuite) :
    ComparisonResult :=
  let stats : ComparisonStats :=
    { ConfidenceLevel := bc.ConfidenceLevel
      SignificanceLevel := 1 - bc.ConfidenceLevel
      RegressionThreshold := bc.RegressionThreshold }
  let emptySummary : ComparisonSummary :=
    { TotalComparisons := 0, Regressions := 0, Improvements := 0,
      AverageDelta := fin 0, MaxDelta := fin 0, MinDelta := fin 0, SignificantChanges := 0 }
  let emptyResult : ComparisonResult :=
    { Benchmarks := [], Summary := emptySummary, Regressions := [], Improvements := [],
      Statistics := stats }
  match baseline, current with
  | some bs, some cs =>
    if bs.Results = [] ∨ cs.Results = [] then emptyResult
    else
      let step := cs.Results.foldl (compareStep bc bs.Results) ([], [], [])
      let loopResult : ComparisonResult :=
        { Benchmarks := step.1, Summary := emptySummary, Regressions := step.2.1,
          Improvements := step.2.2, Statistics := stats }
      { loopResult with Summary := calculateSummary loopResult }
  | _, _ => emptyResult

end Comparator

/-- Lookup in a Go-map modelled as an association list: the first entry
with the key (entries are unique by construction of the operations). -/
def assocGet {α : Type} (m : List (String × α)) (k : String) : Option α :=
  (m.find? (fun p => p.1 = k)).map (fun p => p.2)

/-- Go-map write: update in place when the key is present, append
otherwise. -/
def assocPut {α : Type} (m : List (String × α)) (k : String) (v : α) : List (String × α) :=
  if (assocGet m k).isSome then m.map (fun p => if p.1 = k then (k, v) else p)
  else m ++ [(k, v)]

/-- Go-map delete: drop every entry with the key. -/
def assocDelete {α : Type} (m : List (String × α)) (k : String) : List (String × α) :=
  m.filter (fun p => ¬p.1 = k)

/-- Embedding of comparator.LRUCache (capacity-only eviction, values
are comparison results): `items` models the Go map, `order` the
insertion-order slice. -/
structure LRUCache : Type where
  maxSize : Nat
  items : List (String × ComparisonResult)
  order : List String
deriving DecidableEq

namespace LRUCache

/-- Embedding of comparator.NewLRUCache. -/
def empty (maxSize : Nat) : LRUCache := ⟨maxSize, [], []⟩

/-- Embedding of LRUCache.Get: a plain map lookup, no promotion. -/
def get (c : LRUCache) (k : String) : Option ComparisonResult := assocGet c.items k

/-- Embedding of LRUCache.evictOldest: drop the head of the insertion
order and its map entry. -/
def evictOldest (c : LRUCache) : LRUCache :=
  match c.order with
  | [] => c
  | oldest :: rest => { c with items := assocDelete c.items oldest, order := rest }

/-- Embedding of LRUCache.Set: update in place when present; otherwise
evict the oldest entry when at capacity, then append. -/
def set (c : LRUCache) (k : String) (v : ComparisonResult) : LRUCache :=
  if (assocGet c.items k).isSome then { c with items := assocPut c.items k v }
  else
    let c1 := if c.maxSize ≤ c.items.length then evictOldest c else c
    { c1 with items := assocPut c1.items k v, order := c1.order ++ [k] }

/-- Embedding of LRUCache.Size (the Go map size; operations keep the
association list duplicate-free). -/
def size (c : LRUCache) : Nat := c.items.length

end LRUCache

namespace Comparator

/-- Contribution of one benchmark result to the cache key preimage,
fmt.Fprintf with format %s:%s:%d. -/
def resultKeyPart (r : BenchmarkResult) : String :=
  r.Name ++ ":" ++ r.Language ++ ":" ++ toString r.Time

/-- Contribution of one suite (nil contributes nothing). -/
def suiteKeyPart (s : Option BenchmarkSuite) : String :=
  match s with
  | none => ""
  | some s => String.join (s.Results.map resultKeyPart)

/-- Embedding of CachedComparator.cacheKey. The MD5 digest is modelled
by its preimage: the digest is a deterministic function of this string,
so equal preimages give equal keys, the only property used below. -/
def cacheKey (baseline current : Option BenchmarkSuite) : String :=
  suiteKeyPart baseline ++ suiteKeyPart current

/-- Embedding of CachedComparator.Compare wrapping a BasicComparator:
returns the cached result on a hit, otherwise delegates and stores.
The updated cache is returned alongside. -/
def cachedCompare (bc : BasicComparator) (cache : LRUCache)
    (baseline current : Option BenchmarkSuite) : ComparisonResult × LRUCache :=
  let key := cacheKey baseline current
  match cache.get key with
  | some r => (r, cache)
  | none =>
    let r := Compare bc baseline current
    (r, cache.set key r)

end Comparator

/-- Embedding of storage.queryCacheItem: cached data with its expiry
instant (nanoseconds). -/
structure QueryCacheItem (V : Type) : Type where
  data : V
  expiresAt : Int
  key : String
deriving DecidableEq

/-- Embedding of storage.QueryCache (capacity + time-to-live): the Go
map as an association list plus the insertion-order slice. The cached
values are opaque (interface values in Go), hence the type parameter. -/
structure QueryCache (V : Type) : Type where
  maxSize : Nat
  items : List (String × QueryCacheItem V)
  order : List String
deriving DecidableEq

namespace QueryCache

/-- Embedding of storage.NewQueryCache. -/
def empty (V : Type) (maxSize : Nat) : QueryCache V := ⟨maxSize, [], []⟩

/-- Embedding of QueryCache.Get at instant `now`: a present entry is a
miss when now is strictly after its expiry instant. -/
def get {V : Type} (qc : QueryCache V) (k : String) (now : Int) : Option V :=
  match assocGet qc.items k with
  | none => none
  | some item => if item.expiresAt < now then none else some item.data

/-- Embedding of QueryCache.evictOldest. -/
def evictOldest {V : Type} (qc : QueryCache V) : QueryCache V :=
  match qc.order with
  | [] => qc
  | oldest :: rest => { qc with items := assocDelete qc.items oldest, order := rest }

/-- Embedding of QueryCache.SetWithTTL at instant `now`: the entry
expires at now + ttl; insertion-time eviction applies at capacity. -/
def setWithTTL {V : Type} (qc : QueryCache V) (k : String) (v : V) (ttl : Int) (now : Int) :
    QueryCache V :=
  if (assocGet qc.items k).isSome then
    { qc with items := assocPut qc.items k ⟨v, now + ttl, k⟩ }
  else
    let qc1 := if qc.maxSize ≤ qc.items.length then evictOldest qc else qc
    { qc1 with items := assocPut qc1.items k ⟨v, now + ttl, k⟩, order := qc1.order ++ [k] }

end QueryCache

/-- Embedding of analyzer.HistoricalComparison, with `CreatedAt` as
int64 nanoseconds. -/
structure HistoricalComparison : Type where
  ID : Int
  BenchmarkName : String
  Language : String
  BaselineTimeNs : Int
  CurrentTimeNs : Int
  TimeDeltaPercent : ℚ
  IsRegression : Bool
  CommitHash : String
  BranchName : String
  Author : String
  CreatedAt : Int
deriving DecidableEq

/-- Embedding of analyzer.TrendResult. -/
structure TrendResult : Type where
  BenchmarkName : String
  Language : String
  Direction : String
  Slope : ℚ
  RSquared : ℚ
  ChangePercent : ℚ
  PeriodDays : Int
  DataPoints : Nat
  StartTime : Int
  EndTime : Int
  StartValue : ℚ
  EndValue : ℚ
deriving DecidableEq

/-- Embedding of analyzer.Forecast. -/
structure Forecast : Type where
  BenchmarkName : String
  Language : String
  Period : Int
  PredictedTime : ℚ
  LowerBound : ℚ
  UpperBound : ℚ
  Confidence : ℚ
deriving DecidableEq

/-- Embedding of analyzer.BasicTrendAnalyzer configuration. -/
structure BasicTrendAnalyzer : Type where
  MinDataPoints : Nat
  ZScoreThreshold : ℚ
  ConfidenceLevel : ℚ
deriving DecidableEq

/-- Failure conditions of CalculateTrend: insufficient data points,
no historical data, and no variance in x, in the words of the source
error messages. -/
inductive TrendError : Type where
  | insufficientData
  | noHistoricalData
  | noVarianceX
deriving DecidableEq

namespace Analyzer

/-- Insertion of one record into a list ascending by CreatedAt,
modelling the sort.Slice ordering of the source (ties may appear in
either order in Go; no theorem below depends on tie order). -/
def insertByTime (x : HistoricalComparison) :
    List HistoricalComparison → List HistoricalComparison
  | [] => [x]
  | y :: ys => if x.CreatedAt < y.CreatedAt then x :: y :: ys else y :: insertByTime x ys

/-- Ascending-by-timestamp sort of a historical series. -/
def sortByTime (l : List HistoricalComparison) : List HistoricalComparison :=
  l.foldr insertByTime []

/-- Days elapsed between two instants, Sub(...).Hours() / 24 of the
source: nanoseconds divided by 3.6e12, then by 24. -/
def daysSince (t0 t : Int) : ℚ := (((t - t0 : Int) : ℚ) / 3600000000000) / 24

/-- Go int(f) conversion: truncation toward zero. -/
def goTrunc (q : ℚ) : Int := if q < 0 then -((-q).floor) else q.floor

/-- The x-regression denominator n * sumX2 - sumX * sumX computed by
CalculateTrend over a sorted series (x measured in days since the
first record). -/
def trendDenominator : List HistoricalComparison → ℚ
  | [] => 0
  | s0 :: rest =>
    let xs := (s0 :: rest).map (fun c => daysSince s0.CreatedAt c.CreatedAt)
    ((s0 :: rest).length : ℚ) * (xs.map (fun x => x * x)).sum - xs.sum * xs.sum

/-- Embedding of BasicTrendAnalyzer.CalculateTrend. Failures are the
source error conditions in source order: length below minDataPoints,
empty series, then absolute x-denominator below the 1e-10 tolerance. -/
def CalculateTrend (history : List HistoricalComparison) (minDataPoints : Nat) :
    Except TrendError TrendResult :=
  if history.length < minDataPoints then .error .insufficientData
  else
    match sortByTime history with
    | [] => .error .noHistoricalData
    | s0 :: rest =>
      let sorted := s0 :: rest
      let n : ℚ := (sorted.length : ℚ)
      let pts := sorted.map (fun c => (daysSince s0.CreatedAt c.CreatedAt, (c.CurrentTimeNs : ℚ)))
      let sumX := (pts.map (fun p => p.1)).sum
      let sumY := (pts.map (fun p => p.2)).sum
      let sumXY := (pts.map (fun p => p.1 * p.2)).sum
      let denominator := trendDenominator sorted
      if |denominator| < (1e-10 : ℚ) then .error .noVarianceX
      else
        let slope := (n * sumXY - sumX * sumY) / denominator
        let intercept := (sumY - slope * sumX) / n
        let meanY := sumY / n
        let ssRes := (pts.map (fun p => (p.2 - (intercept + slope * p.1)) ^ 2)).sum
        let ssTot := (pts.map (fun p => (p.2 - meanY) ^ 2)).sum
        let rSquared0 : ℚ := if ssTot > 0 then 1 - ssRes / ssTot else 1
        let rSquared1 : ℚ := if rSquared0 < 0 then 0 else rSquared0
        let rSquared : ℚ := if rSquared1 > 1 then 1 else rSquared1
        let direction :=
          if 1 < |slope| then (if 0 < slope then "degrading" else "improving") else "stable"
        let last := sorted.getLastD s0
        let periodDays0 := goTrunc ((((last.CreatedAt - s0.CreatedAt : Int) : ℚ) / 3600000000000) / 24)
        let periodDays := if periodDays0 = 0 then 1 else periodDays0
        let startValue : ℚ := (s0.CurrentTimeNs : ℚ)
        let endValue : ℚ := (last.CurrentTimeNs : ℚ)
        let changePercent := if 0 < startValue then ((endValue - startValue) / startValue) * 100 else 0
        .ok
          { BenchmarkName := s0.BenchmarkName
            Language := s0.Language
            Direction := direction
            Slope := slope
            RSquared := rSquared
            ChangePercent := changePercent
            PeriodDays := periodDays
            DataPoints := sorted.length
            StartTime := s0.CreatedAt
            EndTime := last.CreatedAt
            StartValue := startValue
            EndValue := endValue }

/-- Embedding of analyzer.calculateMean. -/
def calculateMean (values : List ℚ) : ℚ :=
  if values = [] then 0 else values.sum / (values.length : ℚ)

/-- Embedding of analyzer.calculateForecastStdErr: square root of the
Bessel-corrected mean squared deviation of the series values. -/
def calculateForecastStdErr (history : List HistoricalComparison) : ℚ :=
  if history.length < 2 then 0
  else
    let values := history.map (fun c => (c.CurrentTimeNs : ℚ))
    let mean := calculateMean values
    let ssRes := (values.map (fun v => (v - mean) * (v - mean))).sum
    let mse := ssRes / ((values.length - 1 : Nat) : ℚ)
    ratSqrt mse

/-- Group key of ForecastPerformance: benchmark name and language. -/
def groupKey (c : HistoricalComparison) : String := c.BenchmarkName ++ ":" ++ c.Language

/-- Distinct group keys in first-appearance order (Go iterates its map
in unspecified order; only the set of emitted forecasts matters to the
theorems below). -/
def groupKeys (l : List HistoricalComparison) : List String :=
  l.foldl (fun acc c => if groupKey c ∈ acc then acc else acc ++ [groupKey c]) []

/-- Forecasts of one group: the trend of the group followed by one
linear projection per period with the 1.96 margin, lower bound clamped
at zero. -/
def forecastGroup (bta : BasicTrendAnalyzer) (comps : List HistoricalComparison)
    (periods : Int) : List Forecast :=
  if comps.length < 2 then []
  else
    match CalculateTrend comps 2 with
    | .error _ => []
    | .ok trend =>
      let stdErr := calculateForecastStdErr comps
      (List.range periods.toNat).map (fun i =>
        let p : ℚ := ((i + 1 : Nat) : ℚ)
        let predictedTime := trend.EndValue + trend.Slope * p
        let marginOfError := (1.96 : ℚ) * stdErr * ratSqrt (1 + 1 / (comps.length : ℚ))
        let lower0 := predictedTime - marginOfError
        { BenchmarkName := trend.BenchmarkName
          Language := trend.Language
          Period := ((i + 1 : Nat) : Int)
          PredictedTime := predictedTime
          LowerBound := if lower0 < 0 then 0 else lower0
          UpperBound := predictedTime + marginOfError
          Confidence := bta.ConfidenceLevel })

/-- Embedding of BasicTrendAnalyzer.ForecastPerformance: sort, group by
benchmark and language, and forecast each group of at least two
points. -/
def ForecastPerformance (bta : BasicTrendAnalyzer) (history : List HistoricalComparison)
    (periods : Int) : List Forecast :=
  if history.length < 2 ∨ periods ≤ 0 then []
  else
    let sorted := sortByTime history
    ((groupKeys sorted).map (fun k =>
      forecastGroup bta (sorted.filter (fun c => groupKey c = k)) periods)).flatten

end Analyzer

theorem assocGet_nil {α : Type} (k : String) : assocGet ([] : List (String × α)) k = none := rfl

theorem assocGet_cons {α : Type} (p : String × α) (m : List (String × α)) (k : String) :
    assocGet (p :: m) k = if p.1 = k then some p.2 else assocGet m k := by
  by_cases h : p.1 = k <;> simp [assocGet, List.find?, h]

theorem assocGet_append_single {α : Type} (m : List (String × α)) (k : String) (v : α)
    (h : assocGet m k = none) : assocGet (m ++ [(k, v)]) k = some v := by
  induction m with
  | nil => simp [assocGet, List.find?]
  | cons p m ih =>
    rw [List.cons_append, assocGet_cons] at *
    by_cases hp : p.1 = k
    · simp [hp] at h
    · simp [hp] at h ⊢
      exact ih h

theorem assocGet_map_put {α : Type} (m : List (String × α)) (k : String) (v : α)
    (h : (assocGet m k).isSome) :
    assocGet (m.map (fun p => if p.1 = k then (k, v) else p)) k = some v := by
  induction m with
  | nil => simp [assocGet] at h
  | cons p m ih =>
    by_cases hp : p.1 = k
    · simp [hp, assocGet_cons]
    · rw [assocGet_cons] at h
      simp [hp] at h ⊢
      rw [assocGet_cons]
      simp [hp]
      exact ih h

theorem assocGet_put_self {α : Type} (m : List (String × α)) (k : String) (v : α) :
    assocGet (assocPut m k v) k = some v := by
  unfold assocPut
  by_cases h : (assocGet m k).isSome
  · simp only [h, if_true]
    exact assocGet_map_put m k v h
  · simp only [h, if_false]
    apply assocGet_append_single
    cases hm : assocGet m k
    · rfl
    · rw [hm] at h; simp at h

theorem assocDelete_cons {α : Type} (p : String × α) (m : List (String × α)) (j : String) :
    assocDelete (p :: m) j = if p.1 = j then assocDelete m j else p :: assocDelete m j := by
  by_cases hj : p.1 = j <;> simp [assocDelete, List.filter_cons, hj]

theorem assocGet_delete_of_none {α : Type} (m : List (String × α)) (j k : String)
    (h : assocGet m k = none) : assocGet (assocDelete m j) k = none := by
  induction m with
  | nil => rfl
  | cons p m ih =>
    rw [assocGet_cons] at h
    by_cases hp : p.1 = k
    · simp [hp] at h
    · simp [hp] at h
      rw [assocDelete_cons]
      by_cases hj : p.1 = j
      · simp [hj]
        exact ih h
      · simp [hj, assocGet_cons, hp]
        exact ih h

/-- C7: an entry stored by SetWithTTL at instant now0 with TTL ttl is
returned by Get at any instant up to and including now0 + ttl, and is
treated as a miss at any instant strictly after now0 + ttl. -/
theorem queryCache_ttl_hit_iff (V : Type) (qc : QueryCache V) (k : String) (v : V)
    (ttl now0 now : Int) :
    QueryCache.get (QueryCache.setWithTTL qc k v ttl now0) k now =
      if now0 + ttl < now then none else some v := by
  unfold QueryCache.setWithTTL QueryCache.get
  by_cases h : (assocGet qc.items k).isSome
  · simp only [h, if_true]
    rw [assocGet_put_self]
  · simp only [h, Bool.false_eq_true, if_false]
    rw [assocGet_put_self]

/-- C10: GetSignificance reports (significant = false, pValue = 1) for
a nil input or a zero measured time on either side, at every
confidence level. -/
theorem getSignificance_degenerate (baseline current : Option BenchmarkResult) (conf : ℚ)
    (h : baseline = none ∨ current = none ∨
      (∃ b ∈ baseline, b.Time = 0) ∨ (∃ c ∈ current, c.Time = 0)) :
    Comparator.GetSignificance baseline current conf = (false, GoFloat.fin 1) := by
  rcases h with h | h | ⟨b, hb, hb0⟩ | ⟨c, hc, hc0⟩
  · subst h; cases current <;> rfl
  · subst h; cases baseline <;> rfl
  · rw [Option.mem_def] at hb
    subst hb
    cases current with
    | none => rfl
    | some c => simp [Comparator.GetSignificance, hb0]
  · rw [Option.mem_def] at hc
    subst hc
    cases baseline with
    | none => rfl
    | some b => simp [Comparator.GetSignificance, hc0]

/-- C10 witness: a concrete zero-time baseline yields (false, 1). -/
theorem getSignificance_degenerate_witness :
    Comparator.GetSignificance (some ⟨"sort", "go", 0, 1, 0⟩) (some ⟨"sort", "go", 1100, 1, 5⟩)
      0.95 = (false, GoFloat.fin 1) :=
  getSignificance_degenerate _ _ _ (Or.inr (Or.inr (Or.inl ⟨⟨"sort", "go", 0, 1, 0⟩, rfl, rfl⟩)))

theorem cohensD_single_nan (x y : ℚ) :
    Comparator.CohensDEffect [GoFloat.fin x] [GoFloat.fin y] = GoFloat.nan := by
  norm_num [Comparator.CohensDEffect, Comparator.calculateMean, Comparator.calculateStdDev,
    GoFloat.add, GoFloat.sub, GoFloat.neg, GoFloat.mul, GoFloat.div, GoFloat.sqrtF, GoFloat.beqF]

/-- C1 counterexample: for the matched pair 1000ns versus 1100ns, both
sides one-element samples of zero sample variance, the effect size
stored in the comparison is NaN, not 0: the pooled variance of two
one-element samples is the division 0/0, and the zero guard of
CohensDEffect does not fire on NaN. -/
theorem effectSize_not_zero_counterexample :
    (Comparator.compareResults ⟨0.95, 1.05⟩ ⟨"sort", "go", 1000, 1, 0⟩
        ⟨"sort", "go", 1100, 1, 0⟩).EffectSize ≠ GoFloat.fin 0 := by
  simp [Comparator.compareResults, cohensD_single_nan]

/-- C1 amended: every BenchmarkComparison produced by compareResults
has effect size NaN, because CohensDEffect is always called on two
one-element samples, whose pooled variance is 0/0; the
zero-pooled-standard-deviation guard returns 0 only when the pooled
variance evaluates to an exact 0, which needs a sample of at least two
elements. -/
theorem compareResults_effectSize_nan (bc : BasicComparator) (b c : BenchmarkResult) :
    (Comparator.compareResults bc b c).EffectSize = GoFloat.nan := by
  simp [Comparator.compareResults, cohensD_single_nan]

theorem div_fin_fin (a b : ℚ) :
    GoFloat.div (GoFloat.fin a) (GoFloat.fin b) =
      if b = 0 then (if a = 0 then GoFloat.nan else if 0 < a then GoFloat.pinf else GoFloat.ninf)
      else GoFloat.fin (a / b) := rfl

theorem ltF_fin_fin (a b : ℚ) : GoFloat.ltF (GoFloat.fin a) (GoFloat.fin b) = decide (a < b) := rfl

theorem ltF_fin_pinf (a : ℚ) : GoFloat.ltF (GoFloat.fin a) GoFloat.pinf = true := rfl

theorem ltF_fin_ninf (a : ℚ) : GoFloat.ltF (GoFloat.fin a) GoFloat.ninf = false := rfl

theorem ltF_fin_nan (a : ℚ) : GoFloat.ltF (GoFloat.fin a) GoFloat.nan = false := rfl

theorem compareResults_fields (bc : BasicComparator) (b c : BenchmarkResult) :
    (Comparator.compareResults bc b c).Baseline = b ∧
    (Comparator.compareResults bc b c).Current = c ∧
    (Comparator.compareResults bc b c).RegressionThreshold = bc.RegressionThreshold ∧
    (Comparator.compareResults bc b c).IsRegression =
      GoFloat.ltF (GoFloat.fin bc.RegressionThreshold)
        (GoFloat.div (GoFloat.fin (c.Time : ℚ)) (GoFloat.fin (b.Time : ℚ))) := by
  refine ⟨rfl, rfl, rfl, rfl⟩

theorem mem_foldl_compareStep (bc : BasicComparator) (bs : List BenchmarkResult)
    (l : List BenchmarkResult) (acc : List BenchmarkComparison × List String × List String)
    (x : BenchmarkComparison)
    (h : x ∈ (List.foldl (Comparator.compareStep bc bs) acc l).1) :
    x ∈ acc.1 ∨ ∃ rb rc, x = Comparator.compareResults bc rb rc := by
  induction l generalizing acc with
  | nil => exact Or.inl h
  | cons c l ih =>
    rw [List.foldl_cons] at h
    rcases ih _ h with hacc | hex
    · unfold Comparator.compareStep at hacc
      split at hacc
      · exact Or.inl hacc
      · split at hacc
        · exact Or.inl hacc
        · simp only [List.mem_append, List.mem_singleton] at hacc
          rcases hacc with hacc | hx
          · exact Or.inl hacc
          · exact Or.inr ⟨_, c, hx⟩
    · exact Or.inr hex

theorem mem_compare_benchmarks (bc : BasicComparator) (baseline current : Option BenchmarkSuite)
    (x : BenchmarkComparison) (h : x ∈ (Comparator.Compare bc baseline current).Benchmarks) :
    ∃ rb rc, x = Comparator.compareResults bc rb rc := by
  cases baseline with
  | none => simp [Comparator.Compare] at h
  | some bs =>
    cases current with
    | none => simp [Comparator.Compare] at h
    | some cs =>
      unfold Comparator.Compare at h
      dsimp only at h
      split at h
      · simp at h
      · rcases mem_foldl_compareStep bc bs.Results cs.Results ([], [], []) x h with h0 | hex
        · simp at h0
        · exact hex

theorem isRegression_of_ratio (bc : BasicComparator) (b c : BenchmarkResult)
    (hb : 0 ≤ b.Time) :
    ((Comparator.compareResults bc b c).IsRegression = true →
      (b.Time : ℚ) * bc.RegressionThreshold < (c.Time : ℚ)) ∧
    (0 < b.Time → (b.Time : ℚ) * bc.RegressionThreshold < (c.Time : ℚ) →
      (Comparator.compareResults bc b c).IsRegression = true) := by
  rcases (compareResults_fields bc b c) with ⟨-, -, -, hreg⟩
  rw [hreg, div_fin_fin]
  rcases lt_or_eq_of_le hb with hpos | hzero
  · have hbq : (0 : ℚ) < (b.Time : ℚ) := by exact_mod_cast hpos
    have hbne : ((b.Time : ℚ)) ≠ 0 := ne_of_gt hbq
    rw [if_neg hbne]
    constructor
    · intro ht
      rw [ltF_fin_fin, decide_eq_true_eq, lt_div_iff hbq] at ht
      linarith [ht]
    · intro hpos2 hlt
      rw [ltF_fin_fin, decide_eq_true_eq, lt_div_iff hbq]
      linarith [hlt]
  · have hbq : ((b.Time : ℚ)) = 0 := by exact_mod_cast hzero.symm
    rw [if_pos hbq]
    constructor
    · intro ht
      by_cases hc0 : ((c.Time : ℚ)) = 0
      · rw [if_pos hc0, ltF_fin_nan] at ht
        simp at ht
      · rw [if_neg hc0] at ht
        by_cases hcpos : (0 : ℚ) < (c.Time : ℚ)
        · rw [hbq]
          simpa using hcpos
        · rw [if_neg hcpos, ltF_fin_ninf] at ht
          simp at ht
    · intro hpos2
      exfalso
      omega

/-- C5: for every comparison produced by Compare on duration (hence
non-negative) baseline times, isRegression implies
current.time > baseline.time * regressionThreshold, and conversely
whenever baseline.time > 0. -/
theorem compare_isRegression_iff_ratio (bc : BasicComparator)
    (baseline current : Option BenchmarkSuite) (comp : BenchmarkComparison)
    (hmem : comp ∈ (Comparator.Compare bc baseline current).Benchmarks)
    (hb : 0 ≤ comp.Baseline.Time) :
    (comp.IsRegression = true →
      (comp.Baseline.Time : ℚ) * comp.RegressionThreshold < (comp.Current.Time : ℚ)) ∧
    (0 < comp.Baseline.Time →
      (comp.Baseline.Time : ℚ) * comp.RegressionThreshold < (comp.Current.Time : ℚ) →
      comp.IsRegression = true) := by
  rcases mem_compare_benchmarks bc baseline current comp hmem with ⟨rb, rc, hx⟩
  subst hx
  exact isRegression_of_ratio bc rb rc hb

/-- C5 witness: the 1000ns versus 1100ns pair at threshold 1.05 is in
the compared benchmarks, has a non-negative baseline, and satisfies
both directions. -/
theorem compare_isRegression_iff_ratio_witness :
    (Comparator.compareResults ⟨0.95, 1.05⟩ ⟨"sort", "go", 1000, 1, 0⟩ ⟨"sort", "go", 1100, 1, 0⟩
        ∈ (Comparator.Compare ⟨0.95, 1.05⟩
            (some ⟨[⟨"sort", "go", 1000, 1, 0⟩], "go", 0⟩)
            (some ⟨[⟨"sort", "go", 1100, 1, 0⟩], "go", 0⟩)).Benchmarks) ∧
    (0 ≤ (Comparator.compareResults ⟨0.95, 1.05⟩ ⟨"sort", "go", 1000, 1, 0⟩
        ⟨"sort", "go", 1100, 1, 0⟩).Baseline.Time) ∧
    (((Comparator.compareResults ⟨0.95, 1.05⟩ ⟨"sort", "go", 1000, 1, 0⟩
        ⟨"sort", "go", 1100, 1, 0⟩).IsRegression = true →
      ((Comparator.compareResults ⟨0.95, 1.05⟩ ⟨"sort", "go", 1000, 1, 0⟩
        ⟨"sort", "go", 1100, 1, 0⟩).Baseline.Time : ℚ) *
        (Comparator.compareResults ⟨0.95, 1.05⟩ ⟨"sort", "go", 1000, 1, 0⟩
        ⟨"sort", "go", 1100, 1, 0⟩).RegressionThreshold <
        ((Comparator.compareResults ⟨0.95, 1.05⟩ ⟨"sort", "go", 1000, 1, 0⟩
        ⟨"sort", "go", 1100, 1, 0⟩).Current.Time : ℚ)) ∧
    (0 < (Comparator.compareResults ⟨0.95, 1.05⟩ ⟨"sort", "go", 1000, 1, 0⟩
        ⟨"sort", "go", 1100, 1, 0⟩).Baseline.Time →
      ((Comparator.compareResults ⟨0.95, 1.05⟩ ⟨"sort", "go", 1000, 1, 0⟩
        ⟨"sort", "go", 1100, 1, 0⟩).Baseline.Time : ℚ) *
        (Comparator.compareResults ⟨0.95, 1.05⟩ ⟨"sort", "go", 1000, 1, 0⟩
        ⟨"sort", "go", 1100, 1, 0⟩).RegressionThreshold <
        ((Comparator.compareResults ⟨0.95, 1.05⟩ ⟨"sort", "go", 1000, 1, 0⟩
        ⟨"sort", "go", 1100, 1, 0⟩).Current.Time : ℚ) →
      (Comparator.compareResults ⟨0.95, 1.05⟩ ⟨"sort", "go", 1000, 1, 0⟩
        ⟨"sort", "go", 1100, 1, 0⟩).IsRegression = true)) :=
  ⟨by simp [Comparator.Compare, Comparator.compareStep, Comparator.lookupBaseline],
   by decide,
   compare_isRegression_iff_ratio ⟨0.95, 1.05⟩
     (some ⟨[⟨"sort", "go", 1000, 1, 0⟩], "go", 0⟩)
     (some ⟨[⟨"sort", "go", 1100, 1, 0⟩], "go", 0⟩) _
     (by simp [Comparator.Compare, Comparator.compareStep, Comparator.lookupBaseline])
     (by decide)⟩

theorem lookupBaseline_eq_none (rs : List BenchmarkResult) (name : String)
    (h : ∀ r ∈ rs, r.Name ≠ name) : Comparator.lookupBaseline rs name = none := by
  unfold Comparator.lookupBaseline
  induction rs with
  | nil => rfl
  | cons r rs ih =>
    rw [List.foldl_cons, if_neg (h r (List.mem_cons_self r rs))]
    exact ih (fun r hr => h r (List.mem_cons_of_mem _ hr))

theorem foldl_compareStep_disjoint (bc : BasicComparator) (bs : List BenchmarkResult)
    (l : List BenchmarkResult) (acc : List BenchmarkComparison × List String × List String)
    (h : ∀ rc ∈ l, Comparator.lookupBaseline bs rc.Name = none) :
    List.foldl (Comparator.compareStep bc bs) acc l = acc := by
  induction l generalizing acc with
  | nil => rfl
  | cons c l ih =>
    rw [List.foldl_cons]
    have hstep : Comparator.compareStep bc bs acc c = acc := by
      unfold Comparator.compareStep
      rw [h c (List.mem_cons_self c l)]
    rw [hstep]
    exact ih acc (fun rc hrc => h rc (List.mem_cons_of_mem _ hrc))

/-- C8: Compare resolves degenerate input (a nil suite, an empty suite,
or disjoint benchmark name sets) to a result with no benchmarks, no
regression or improvement names, and zero total comparisons, never an
error. -/
theorem compare_degenerate_empty (bc : BasicComparator)
    (baseline current : Option BenchmarkSuite)
    (h : baseline = none ∨ current = none ∨
      (∃ bs ∈ baseline, bs.Results = []) ∨ (∃ cs ∈ current, cs.Results = []) ∨
      (∀ bs ∈ baseline, ∀ cs ∈ current, ∀ rb ∈ bs.Results, ∀ rc ∈ cs.Results,
        rb.Name ≠ rc.Name)) :
    (Comparator.Compare bc baseline current).Benchmarks = [] ∧
    (Comparator.Compare bc baseline current).Regressions = [] ∧
    (Comparator.Compare bc baseline current).Improvements = [] ∧
    (Comparator.Compare bc baseline current).Summary.TotalComparisons = 0 := by
  cases baseline with
  | none => exact ⟨rfl, rfl, rfl, rfl⟩
  | some bs =>
    cases current with
    | none => exact ⟨rfl, rfl, rfl, rfl⟩
    | some cs =>
      by_cases hemp : bs.Results = [] ∨ cs.Results = []
      · unfold Comparator.Compare
        dsimp only
        rw [if_pos hemp]
        exact ⟨rfl, rfl, rfl, rfl⟩
      · have hdisj : ∀ rb ∈ bs.Results, ∀ rc ∈ cs.Results, rb.Name ≠ rc.Name := by
          rcases h with h | h | ⟨bs2, hbs2, hbe⟩ | ⟨cs2, hcs2, hce⟩ | h
          · exact absurd h (by simp)
          · exact absurd h (by simp)
          · rw [Option.mem_def] at hbs2
            injection hbs2 with hbs2e
            exact absurd (hbs2e ▸ hbe) (fun he => hemp (Or.inl he))
          · rw [Option.mem_def] at hcs2
            injection hcs2 with hcs2e
            exact absurd (hcs2e ▸ hce) (fun he => hemp (Or.inr he))
          · exact h bs rfl cs rfl
        have hnone : ∀ rc ∈ cs.Results, Comparator.lookupBaseline bs.Results rc.Name = none := by
          intro rc hrc
          exact lookupBaseline_eq_none bs.Results rc.Name
            (fun rb hrb => hdisj rb hrb rc hrc)
        unfold Comparator.Compare
        dsimp only
        rw [if_neg hemp, foldl_compareStep_disjoint bc bs.Results cs.Results ([], [], []) hnone]
        refine ⟨rfl, rfl, rfl, ?_⟩
        simp [Comparator.calculateSummary]

/-- C8 witness: two non-empty suites with disjoint names compare to the
empty result. -/
theorem compare_degenerate_empty_witness :
    ((Comparator.Compare ⟨0.95, 1.05⟩
        (some ⟨[⟨"alpha", "go", 1000, 1, 0⟩], "go", 0⟩)
        (some ⟨[⟨"beta", "go", 1100, 1, 0⟩], "go", 0⟩)).Benchmarks = [] ∧
     (Comparator.Compare ⟨0.95, 1.05⟩
        (some ⟨[⟨"alpha", "go", 1000, 1, 0⟩], "go", 0⟩)
        (some ⟨[⟨"beta", "go", 1100, 1, 0⟩], "go", 0⟩)).Regressions = [] ∧
     (Comparator.Compare ⟨0.95, 1.05⟩
        (some ⟨[⟨"alpha", "go", 1000, 1, 0⟩], "go", 0⟩)
        (some ⟨[⟨"beta", "go", 1100, 1, 0⟩], "go", 0⟩)).Improvements = [] ∧
     (Comparator.Compare ⟨0.95, 1.05⟩
        (some ⟨[⟨"alpha", "go", 1000, 1, 0⟩], "go", 0⟩)
        (some ⟨[⟨"beta", "go", 1100, 1, 0⟩], "go", 0⟩)).Summary.TotalComparisons = 0) :=
  compare_degenerate_empty ⟨0.95, 1.05⟩
    (some ⟨[⟨"alpha", "go", 1000, 1, 0⟩], "go", 0⟩)
    (some ⟨[⟨"beta", "go", 1100, 1, 0⟩], "go", 0⟩)
    (Or.inr (Or.inr (Or.inr (Or.inr (by
      intro bs hbs cs hcs rb hrb rc hrc
      rw [Option.mem_def] at hbs hcs
      injection hbs with hbse
      injection hcs with hcse
      subst hbse
      subst hcse
      simp at hrb hrc
      subst hrb
      subst hrc
      decide)))))

/-- Proof helper: the comparisons emitted by the Compare loop over the
current results, in order, without the name accumulators. -/
def Comparator.emitted (bc : BasicComparator) (bsr : List BenchmarkResult)
    (l : List BenchmarkResult) : List BenchmarkComparison :=
  l.foldr
    (fun c rest =>
      match Comparator.lookupBaseline bsr c.Name with
      | none => rest
      | some b =>
        if b.Language ≠ c.Language then rest else Comparator.compareResults bc b c :: rest)
    []

theorem foldl_compareStep_benchmarks (bc : BasicComparator) (bsr : List BenchmarkResult)
    (l : List BenchmarkResult) (acc : List BenchmarkComparison × List String × List String) :
    (List.foldl (Comparator.compareStep bc bsr) acc l).1 =
      acc.1 ++ Comparator.emitted bc bsr l := by
  induction l generalizing acc with
  | nil => simp [Comparator.emitted]
  | cons c l ih =>
    rw [List.foldl_cons, ih]
    unfold Comparator.compareStep Comparator.emitted
    cases hfind : Comparator.lookupBaseline bsr c.Name with
    | none => simp [hfind]
    | some b =>
      by_cases hlang : b.Language ≠ c.Language
      · simp [hfind, hlang]
      · have heq : b.Language = c.Language := not_not.mp hlang
        simp [hfind, heq]

theorem lookupBaseline_foldl_aux (rs : List BenchmarkResult) (n : String) (r : BenchmarkResult) :
    ∀ acc : Option BenchmarkResult,
      rs.foldl (fun acc r => if r.Name = n then some r else acc) acc = some r →
      acc = some r ∨ (r ∈ rs ∧ r.Name = n) := by
  induction rs with
  | nil => intro acc hh; exact Or.inl hh
  | cons r0 rest ih =>
    intro acc hh
    rw [List.foldl_cons] at hh
    rcases ih _ hh with hacc | hmem
    · by_cases hn : r0.Name = n
      · rw [if_pos hn] at hacc
        injection hacc with he
        exact Or.inr ⟨he ▸ List.mem_cons_self r0 rest, he ▸ hn⟩
      · rw [if_neg hn] at hacc
        exact Or.inl hacc
    · exact Or.inr ⟨List.mem_cons_of_mem _ hmem.1, hmem.2⟩

theorem lookupBaseline_mem (rs : List BenchmarkResult) (n : String) (r : BenchmarkResult)
    (h : Comparator.lookupBaseline rs n = some r) : r ∈ rs ∧ r.Name = n := by
  unfold Comparator.lookupBaseline at h
  rcases lookupBaseline_foldl_aux rs n r none h with habs | hgoal
  · exact absurd habs (by simp)
  · exact hgoal

theorem foldl_lookup_keep (rs : List BenchmarkResult) (n : String) (acc : Option BenchmarkResult)
    (h : ∀ r ∈ rs, r.Name ≠ n) :
    rs.foldl (fun acc r => if r.Name = n then some r else acc) acc = acc := by
  induction rs generalizing acc with
  | nil => rfl
  | cons r rest ih =>
    rw [List.foldl_cons, if_neg (h r (List.mem_cons_self r rest))]
    exact ih acc (fun r hr => h r (List.mem_cons_of_mem _ hr))

theorem lookupBaseline_of_mem (rs : List BenchmarkResult) (n : String) (r : BenchmarkResult)
    (hnodup : (rs.map BenchmarkResult.Name).Nodup) (hmem : r ∈ rs) (hname : r.Name = n) :
    Comparator.lookupBaseline rs n = some r := by
  unfold Comparator.lookupBaseline
  induction rs with
  | nil => simp at hmem
  | cons r0 rest ih =>
    rw [List.map_cons, List.nodup_cons] at hnodup
    rcases List.mem_cons.mp hmem with he | hrest
    · subst he
      rw [List.foldl_cons, if_pos hname]
      apply foldl_lookup_keep
      intro r2 hr2 hr2n
      apply hnodup.1
      rw [hname]
      have h2 : r2.Name ∈ rest.map BenchmarkResult.Name := List.mem_map_of_mem _ hr2
      rw [hr2n] at h2
      exact h2
    · have h0 : r0.Name ≠ n := by
        intro h0eq
        apply hnodup.1
        rw [h0eq, ← hname]
        exact List.mem_map_of_mem _ hrest
      rw [List.foldl_cons, if_neg h0]
      exact ih hnodup.2 hrest

theorem countP_emitted (bc : BasicComparator) (bsr : List BenchmarkResult)
    (l : List BenchmarkResult) (n lang : String)
    (hnodup : (l.map BenchmarkResult.Name).Nodup) :
    (Comparator.emitted bc bsr l).countP
        (fun comp => comp.Name = n && comp.Language = lang) =
      if (∃ c ∈ l, c.Name = n ∧ c.Language = lang) ∧
         (∃ b, Comparator.lookupBaseline bsr n = some b ∧ b.Language = lang)
      then 1 else 0 := by
  revert hnodup
  induction l with
  | nil =>
    intro _
    simp [Comparator.emitted]
  | cons c rest ih =>
    intro hnodup
    rw [List.map_cons, List.nodup_cons] at hnodup
    have hcnotin := hnodup.1
    have ihr := ih hnodup.2
    have hnorest : c.Name = n → ∀ x ∈ rest, x.Name ≠ n := by
      intro hcn x hx hxn
      apply hcnotin
      rw [hcn, ← hxn]
      exact List.mem_map_of_mem _ hx
    have hArest_false : c.Name = n → ¬(∃ x ∈ rest, x.Name = n ∧ x.Language = lang) := by
      rintro hcn ⟨x, hx, hxn, -⟩
      exact hnorest hcn x hx hxn
    have hAiff : ¬c.Name = n →
        ((∃ x ∈ c :: rest, x.Name = n ∧ x.Language = lang) ↔
         (∃ x ∈ rest, x.Name = n ∧ x.Language = lang)) := by
      intro hcn
      constructor
      · rintro ⟨x, hx, hxe⟩
        rcases List.mem_cons.mp hx with he | hr
        · exact absurd (he ▸ hxe.1) hcn
        · exact ⟨x, hr, hxe⟩
      · rintro ⟨x, hx, hxe⟩
        exact ⟨x, List.mem_cons_of_mem _ hx, hxe⟩
    cases hfind : Comparator.lookupBaseline bsr c.Name with
    | none =>
      have hemit : Comparator.emitted bc bsr (c :: rest) = Comparator.emitted bc bsr rest := by
        unfold Comparator.emitted
        rw [List.foldr_cons]
        simp [hfind]
      rw [hemit, ihr]
      by_cases hcn : c.Name = n
      · have hlookn : Comparator.lookupBaseline bsr n = none := hcn ▸ hfind
        simp [hlookn]
      · simp only [hAiff hcn]
    | some b =>
      by_cases hlang : b.Language = c.Language
      · have hemit : Comparator.emitted bc bsr (c :: rest) =
            Comparator.compareResults bc b c :: Comparator.emitted bc bsr rest := by
          unfold Comparator.emitted
          rw [List.foldr_cons]
          simp [hfind, hlang]
        have hname : (Comparator.compareResults bc b c).Name = c.Name := rfl
        have hlangf : (Comparator.compareResults bc b c).Language = c.Language := rfl
        rw [hemit, List.countP_cons, ihr]
        by_cases hcn : c.Name = n
        · have hlookn : Comparator.lookupBaseline bsr n = some b := hcn ▸ hfind
          by_cases hcl : c.Language = lang
          · have hAfull : ∃ x ∈ c :: rest, x.Name = n ∧ x.Language = lang :=
              ⟨c, List.mem_cons_self c rest, hcn, hcl⟩
            have hB : ∃ b2, Comparator.lookupBaseline bsr n = some b2 ∧ b2.Language = lang :=
              ⟨b, hlookn, hlang.trans hcl⟩
            simp [hArest_false hcn, hAfull, hB, hname, hlangf, hcn, hcl]
          · have hAfull : ¬(∃ x ∈ c :: rest, x.Name = n ∧ x.Language = lang) := by
              rintro ⟨x, hx, hxn, hxl⟩
              rcases List.mem_cons.mp hx with he | hr
              · exact hcl (he ▸ hxl)
              · exact hnorest hcn x hr hxn
            simp [hArest_false hcn, hAfull, hname, hlangf, hcl]
        · have hhead : ¬((Comparator.compareResults bc b c).Name = n ∧
              (Comparator.compareResults bc b c).Language = lang) := by
            rintro ⟨h1, -⟩
            exact hcn (hname ▸ h1)
          simp only [hAiff hcn]
          simp [hname, hlangf, hcn]
      · have hemit : Comparator.emitted bc bsr (c :: rest) = Comparator.emitted bc bsr rest := by
          unfold Comparator.emitted
          rw [List.foldr_cons]
          simp [hfind, hlang]
        rw [hemit, ihr]
        by_cases hcn : c.Name = n
        · have hlookn : Comparator.lookupBaseline bsr n = some b := hcn ▸ hfind
          by_cases hcl : c.Language = lang
          · have hbl : b.Language ≠ lang := fun he => hlang (he.trans hcl.symm)
            simp [hlookn, hbl, hArest_false hcn]
          · have hAfull : ¬(∃ x ∈ c :: rest, x.Name = n ∧ x.Language = lang) := by
              rintro ⟨x, hx, hxn, hxl⟩
              rcases List.mem_cons.mp hx with he | hr
              · exact hcl (he ▸ hxl)
              · exact hnorest hcn x hr hxn
            simp [hAfull, hArest_false hcn, hcl]
        · simp only [hAiff hcn]

/-- C3: with benchmark names unique within each suite (the data-model
invariant), Compare emits exactly one comparison for each name and
language pair present in both suites, and none for a name present on
one side only or whose language differs between the sides. -/
theorem compare_exactly_matching (bc : BasicComparator) (bs cs : BenchmarkSuite)
    (hb : (bs.Results.map BenchmarkResult.Name).Nodup)
    (hc : (cs.Results.map BenchmarkResult.Name).Nodup) (n lang : String) :
    (Comparator.Compare bc (some bs) (some cs)).Benchmarks.countP
        (fun comp => comp.Name = n && comp.Language = lang) =
      if (∃ rb ∈ bs.Results, rb.Name = n ∧ rb.Language = lang) ∧
         (∃ rc ∈ cs.Results, rc.Name = n ∧ rc.Language = lang)
      then 1 else 0 := by
  by_cases hemp : bs.Results = [] ∨ cs.Results = []
  · have hben : (Comparator.Compare bc (some bs) (some cs)).Benchmarks = [] := by
      unfold Comparator.Compare
      dsimp only
      rw [if_pos hemp]
    rw [hben]
    rcases hemp with he | he <;> simp [he]
  · have hben : (Comparator.Compare bc (some bs) (some cs)).Benchmarks =
        Comparator.emitted bc bs.Results cs.Results := by
      unfold Comparator.Compare
      dsimp only
      rw [if_neg hemp]
      exact foldl_compareStep_benchmarks bc bs.Results cs.Results ([], [], [])
    rw [hben, countP_emitted bc bs.Results cs.Results n lang hc]
    have hiff : ((∃ c ∈ cs.Results, c.Name = n ∧ c.Language = lang) ∧
        (∃ b, Comparator.lookupBaseline bs.Results n = some b ∧ b.Language = lang)) ↔
        ((∃ rb ∈ bs.Results, rb.Name = n ∧ rb.Language = lang) ∧
         (∃ rc ∈ cs.Results, rc.Name = n ∧ rc.Language = lang)) := by
      constructor
      · rintro ⟨hA, b, hlook, hbl⟩
        rcases lookupBaseline_mem _ _ _ hlook with ⟨hmem, hname⟩
        exact ⟨⟨b, hmem, hname, hbl⟩, hA⟩
      · rintro ⟨⟨rb, hmem, hname, hbl⟩, hA⟩
        exact ⟨hA, rb, lookupBaseline_of_mem _ _ _ hb hmem hname, hbl⟩
    simp only [hiff]

/-- C3 witness: one matching pair named sort in language go appears
exactly once; the name beta, present on the current side only, appears
zero times. -/
theorem compare_exactly_matching_witness :
    (([⟨"sort", "go", 1000, 1, 0⟩] : List BenchmarkResult).map BenchmarkResult.Name).Nodup ∧
    (([⟨"sort", "go", 1100, 1, 0⟩, ⟨"beta", "go", 900, 1, 0⟩] :
        List BenchmarkResult).map BenchmarkResult.Name).Nodup ∧
    ((Comparator.Compare ⟨0.95, 1.05⟩
        (some ⟨[⟨"sort", "go", 1000, 1, 0⟩], "go", 0⟩)
        (some ⟨[⟨"sort", "go", 1100, 1, 0⟩, ⟨"beta", "go", 900, 1, 0⟩], "go", 0⟩)).Benchmarks.countP
        (fun comp => comp.Name = "sort" && comp.Language = "go") =
      if (∃ rb ∈ ([⟨"sort", "go", 1000, 1, 0⟩] : List BenchmarkResult),
            rb.Name = "sort" ∧ rb.Language = "go") ∧
         (∃ rc ∈ ([⟨"sort", "go", 1100, 1, 0⟩, ⟨"beta", "go", 900, 1, 0⟩] :
            List BenchmarkResult), rc.Name = "sort" ∧ rc.Language = "go")
      then 1 else 0) ∧
    ((Comparator.Compare ⟨0.95, 1.05⟩
        (some ⟨[⟨"sort", "go", 1000, 1, 0⟩], "go", 0⟩)
        (some ⟨[⟨"sort", "go", 1100, 1, 0⟩, ⟨"beta", "go", 900, 1, 0⟩], "go", 0⟩)).Benchmarks.countP
        (fun comp => comp.Name = "beta" && comp.Language = "go") =
      if (∃ rb ∈ ([⟨"sort", "go", 1000, 1, 0⟩] : List BenchmarkResult),
            rb.Name = "beta" ∧ rb.Language = "go") ∧
         (∃ rc ∈ ([⟨"sort", "go", 1100, 1, 0⟩, ⟨"beta", "go", 900, 1, 0⟩] :
            List BenchmarkResult), rc.Name = "beta" ∧ rc.Language = "go")
      then 1 else 0) :=
  ⟨by decide, by decide,
   compare_exactly_matching ⟨0.95, 1.05⟩
     ⟨[⟨"sort", "go", 1000, 1, 0⟩], "go", 0⟩
     ⟨[⟨"sort", "go", 1100, 1, 0⟩, ⟨"beta", "go", 900, 1, 0⟩], "go", 0⟩
     (by decide) (by decide) "sort" "go",
   compare_exactly_matching ⟨0.95, 1.05⟩
     ⟨[⟨"sort", "go", 1000, 1, 0⟩], "go", 0⟩
     ⟨[⟨"sort", "go", 1100, 1, 0⟩, ⟨"beta", "go", 900, 1, 0⟩], "go", 0⟩
     (by decide) (by decide) "beta" "go"⟩

theorem assocGet_eq_none_of_not_mem {α : Type} (m : List (String × α)) (k : String)
    (h : k ∉ m.map Prod.fst) : assocGet m k = none := by
  induction m with
  | nil => rfl
  | cons p m ih =>
    rw [List.map_cons] at h
    have hne : ¬p.1 = k := by
      intro he
      subst he
      exact h (List.mem_cons_self _ _)
    rw [assocGet_cons, if_neg hne]
    exact ih (fun hm => h (List.mem_cons_of_mem _ hm))

theorem assocGet_append_left_none {α : Type} (m1 m2 : List (String × α)) (k : String)
    (h : assocGet m1 k = none) : assocGet (m1 ++ m2) k = assocGet m2 k := by
  induction m1 with
  | nil => rfl
  | cons p m1 ih =>
    rw [assocGet_cons] at h
    by_cases hp : p.1 = k
    · simp [hp] at h
    · simp only [hp, if_false] at h
      rw [List.cons_append, assocGet_cons, if_neg hp]
      exact ih h

theorem assocPut_absent {α : Type} (m : List (String × α)) (k : String) (v : α)
    (h : assocGet m k = none) : assocPut m k v = m ++ [(k, v)] := by
  unfold assocPut
  rw [h]
  simp

theorem assocDelete_not_mem {α : Type} (m : List (String × α)) (k : String)
    (h : k ∉ m.map Prod.fst) : assocDelete m k = m := by
  induction m with
  | nil => rfl
  | cons p m ih =>
    rw [List.map_cons] at h
    have hne : ¬p.1 = k := by
      intro he
      subst he
      exact h (List.mem_cons_self _ _)
    rw [assocDelete_cons, if_neg hne]
    rw [ih (fun hm => h (List.mem_cons_of_mem _ hm))]

theorem assocGet_map_put_ne {α : Type} (m : List (String × α)) (k : String) (v : α)
    (j : String) (h : j ≠ k) :
    assocGet (m.map (fun p => if p.1 = k then (k, v) else p)) j = assocGet m j := by
  induction m with
  | nil => rfl
  | cons p m ih =>
    rw [List.map_cons]
    by_cases hp : p.1 = k
    · rw [if_pos hp, assocGet_cons, assocGet_cons]
      have h1 : ¬((k, v).1 = j) := fun he => h (Eq.symm he)
      have h2 : ¬(p.1 = j) := by
        intro he
        rw [hp] at he
        exact h (Eq.symm he)
      rw [if_neg h1, if_neg h2]
      exact ih
    · rw [if_neg hp, assocGet_cons, assocGet_cons]
      by_cases hj : p.1 = j
      · rw [if_pos hj, if_pos hj]
      · rw [if_neg hj, if_neg hj]
        exact ih

/-- Proof helper: repeated LRUCache.Set of a list of key and value
pairs, in order. -/
def LRUCache.insertAll (c : LRUCache) (ps : List (String × ComparisonResult)) : LRUCache :=
  ps.foldl (fun c p => c.set p.1 p.2) c

theorem lru_insert_fresh (ps : List (String × ComparisonResult)) (c : LRUCache)
    (habs : ∀ p ∈ ps, assocGet c.items p.1 = none)
    (hnodup : (ps.map Prod.fst).Nodup)
    (hcap : c.items.length + ps.length ≤ c.maxSize) :
    (c.insertAll ps).items = c.items ++ ps ∧
    (c.insertAll ps).order = c.order ++ ps.map Prod.fst ∧
    (c.insertAll ps).maxSize = c.maxSize := by
  induction ps generalizing c with
  | nil => simp [LRUCache.insertAll]
  | cons p ps ih =>
    rw [List.map_cons, List.nodup_cons] at hnodup
    have habsp := habs p (List.mem_cons_self p ps)
    have hroom : ¬(c.maxSize ≤ c.items.length) := by
      rw [List.length_cons] at hcap
      omega
    have hset : c.set p.1 p.2 =
        { c with items := c.items ++ [p], order := c.order ++ [p.1] } := by
      unfold LRUCache.set
      rw [habsp]
      simp only [Option.isSome_none, Bool.false_eq_true, if_false, hroom]
      rw [assocPut_absent _ _ _ habsp]
    have hstep : LRUCache.insertAll c (p :: ps) =
        LRUCache.insertAll { c with items := c.items ++ [p], order := c.order ++ [p.1] } ps := by
      unfold LRUCache.insertAll
      rw [List.foldl_cons, hset]
    rw [hstep]
    have habs2 : ∀ q ∈ ps,
        assocGet ({ c with items := c.items ++ [p], order := c.order ++ [p.1] } :
          LRUCache).items q.1 = none := by
      intro q hq
      have hqa := habs q (List.mem_cons_of_mem _ hq)
      rw [assocGet_append_left_none _ _ _ hqa, assocGet_cons]
      have hne : ¬(p.1 = q.1) := fun he => hnodup.1 (he ▸ List.mem_map_of_mem Prod.fst hq)
      rw [if_neg hne]
      rfl
    have hcap2 : ({ c with items := c.items ++ [p], order := c.order ++ [p.1] } :
        LRUCache).items.length + ps.length ≤
        ({ c with items := c.items ++ [p], order := c.order ++ [p.1] } : LRUCache).maxSize := by
      simp only [List.length_append, List.length_singleton]
      rw [List.length_cons] at hcap
      omega
    rcases ih _ habs2 hnodup.2 hcap2 with ⟨h1, h2, h3⟩
    refine ⟨?_, ?_, h3⟩
    · rw [h1]
      simp
    · rw [h2]
      simp

/-- C6: on the capacity-only cache, inserting maxSize + 1 distinct keys
into an empty cache of positive capacity evicts exactly the first
inserted key and leaves exactly maxSize entries; and Set on a present
key updates the value in place, with the eviction order, the size, and
every other key unchanged. -/
theorem lruCache_fifo_and_update :
    (∀ (maxSize : Nat) (p0 plast : String × ComparisonResult)
        (mid : List (String × ComparisonResult)),
      1 ≤ maxSize →
      ((p0 :: (mid ++ [plast])).map Prod.fst).Nodup →
      (p0 :: (mid ++ [plast])).length = maxSize + 1 →
      LRUCache.get ((LRUCache.empty maxSize).insertAll (p0 :: (mid ++ [plast]))) p0.1 = none ∧
      ((LRUCache.empty maxSize).insertAll (p0 :: (mid ++ [plast]))).items.length = maxSize) ∧
    (∀ (c : LRUCache) (k : String) (v w : ComparisonResult),
      assocGet c.items k = some w →
      (c.set k v).order = c.order ∧
      (c.set k v).items.length = c.items.length ∧
      LRUCache.get (c.set k v) k = some v ∧
      ∀ j, j ≠ k → LRUCache.get (c.set k v) j = LRUCache.get c j) := by
  constructor
  · intro maxSize p0 plast mid hm1 hnodup hlen
    have hmidlen : mid.length + 1 = maxSize := by
      simp only [List.length_cons, List.length_append, List.length_nil] at hlen
      omega
    rw [show p0 :: (mid ++ [plast]) = (p0 :: mid) ++ [plast] from rfl] at hnodup ⊢
    rw [List.map_append] at hnodup
    have hnd := List.nodup_append.mp hnodup
    have hplast_not : plast.1 ∉ (p0 :: mid).map Prod.fst := by
      intro hmem
      exact hnd.2.2 hmem (by simp)
    have hp0mem : p0.1 ∈ (p0 :: mid).map Prod.fst := by simp
    have hp0ne : ¬p0.1 = plast.1 := by
      intro he
      apply hnd.2.2 hp0mem
      rw [he]
      simp
    have hheadnd := List.nodup_cons.mp (by rw [← List.map_cons]; exact hnd.1)
    have hp0_not_mid : p0.1 ∉ mid.map Prod.fst := hheadnd.1
    have hplast_not_mid : plast.1 ∉ mid.map Prod.fst := by
      intro hm
      exact hplast_not (by rw [List.map_cons]; exact List.mem_cons_of_mem _ hm)
    have hfresh := lru_insert_fresh (p0 :: mid) (LRUCache.empty maxSize)
      (fun _ _ => rfl) hnd.1
      (by
        show ([] : List (String × ComparisonResult)).length + (p0 :: mid).length ≤ maxSize
        simp only [List.length_nil, List.length_cons]
        omega)
    rcases hfresh with ⟨hitems, horder, hmax⟩
    rw [show (LRUCache.empty maxSize).items = [] from rfl, List.nil_append] at hitems
    rw [show (LRUCache.empty maxSize).order = [] from rfl, List.nil_append] at horder
    rw [show (LRUCache.empty maxSize).maxSize = maxSize from rfl] at hmax
    have hc : (LRUCache.empty maxSize).insertAll (p0 :: mid) =
        ⟨maxSize, p0 :: mid, List.map Prod.fst (p0 :: mid)⟩ := by
      rcases hq : (LRUCache.empty maxSize).insertAll (p0 :: mid) with ⟨ms, it, od⟩
      rw [hq] at hitems horder hmax
      dsimp only at hitems horder hmax
      rw [hitems, horder, hmax]
    have hsplit : (LRUCache.empty maxSize).insertAll ((p0 :: mid) ++ [plast]) =
        ((LRUCache.empty maxSize).insertAll (p0 :: mid)).set plast.1 plast.2 := by
      unfold LRUCache.insertAll
      rw [List.foldl_append]
      rfl
    have habs_last : assocGet (p0 :: mid) plast.1 = none :=
      assocGet_eq_none_of_not_mem _ _ hplast_not
    have hsetfull : ((⟨maxSize, p0 :: mid, List.map Prod.fst (p0 :: mid)⟩ : LRUCache)).set
        plast.1 plast.2 = ⟨maxSize, mid ++ [plast], List.map Prod.fst mid ++ [plast.1]⟩ := by
      unfold LRUCache.set
      dsimp only
      rw [habs_last]
      simp only [Option.isSome_none, Bool.false_eq_true, if_false]
      have hcapfull : maxSize ≤ (p0 :: mid).length := by
        simp only [List.length_cons]
        omega
      rw [if_pos hcapfull]
      unfold LRUCache.evictOldest
      dsimp only
      rw [List.map_cons]
      dsimp only
      rw [assocDelete_cons, if_pos rfl, assocDelete_not_mem mid p0.1 hp0_not_mid,
        assocPut_absent _ _ _ (assocGet_eq_none_of_not_mem _ _ hplast_not_mid)]
    rw [hsplit, hc, hsetfull]
    constructor
    · unfold LRUCache.get
      dsimp only
      apply assocGet_eq_none_of_not_mem
      rw [List.map_append]
      intro hmem
      rcases List.mem_append.mp hmem with hm | hm
      · exact hp0_not_mid hm
      · simp at hm
        exact hp0ne hm
    · dsimp only
      simp only [List.length_append, List.length_singleton]
      omega
  · intro c k v w h
    have hs : (assocGet c.items k).isSome := by rw [h]; rfl
    have hset : c.set k v = { c with items := assocPut c.items k v } := by
      unfold LRUCache.set
      rw [if_pos hs]
    rw [hset]
    refine ⟨rfl, ?_, ?_, ?_⟩
    · dsimp only
      unfold assocPut
      rw [if_pos hs]
      simp
    · unfold LRUCache.get
      dsimp only
      exact assocGet_put_self c.items k v
    · intro j hj
      unfold LRUCache.get
      dsimp only
      unfold assocPut
      rw [if_pos hs]
      exact assocGet_map_put_ne c.items k v j hj

/-- C6 witness: capacity 2, keys a, b, c inserted in order evict a and
keep 2 entries; updating the present key a keeps order, size, and the
unrelated key zz. -/
theorem lruCache_fifo_and_update_witness :
    ((1 : Nat) ≤ 2) ∧
    (((("a", (⟨[], ⟨0, 0, 0, GoFloat.fin 0, GoFloat.fin 0, GoFloat.fin 0, 0⟩, [], [], ⟨1, 0, 1⟩⟩ :
        ComparisonResult)) ::
      ([("b", (⟨[], ⟨0, 0, 0, GoFloat.fin 0, GoFloat.fin 0, GoFloat.fin 0, 0⟩, [], [], ⟨1, 0, 1⟩⟩ :
        ComparisonResult))] ++
       [("c", (⟨[], ⟨0, 0, 0, GoFloat.fin 0, GoFloat.fin 0, GoFloat.fin 0, 0⟩, [], [], ⟨1, 0, 1⟩⟩ :
        ComparisonResult))])).map Prod.fst).Nodup) ∧
    (LRUCache.get ((LRUCache.empty 2).insertAll
        (("a", (⟨[], ⟨0, 0, 0, GoFloat.fin 0, GoFloat.fin 0, GoFloat.fin 0, 0⟩, [], [], ⟨1, 0, 1⟩⟩ :
          ComparisonResult)) ::
         ([("b", (⟨[], ⟨0, 0, 0, GoFloat.fin 0, GoFloat.fin 0, GoFloat.fin 0, 0⟩, [], [], ⟨1, 0, 1⟩⟩ :
          ComparisonResult))] ++
          [("c", (⟨[], ⟨0, 0, 0, GoFloat.fin 0, GoFloat.fin 0, GoFloat.fin 0, 0⟩, [], [], ⟨1, 0, 1⟩⟩ :
          ComparisonResult))]))) "a" = none) ∧
    (((LRUCache.empty 2).insertAll
        (("a", (⟨[], ⟨0, 0, 0, GoFloat.fin 0, GoFloat.fin 0, GoFloat.fin 0, 0⟩, [], [], ⟨1, 0, 1⟩⟩ :
          ComparisonResult)) ::
         ([("b", (⟨[], ⟨0, 0, 0, GoFloat.fin 0, GoFloat.fin 0, GoFloat.fin 0, 0⟩, [], [], ⟨1, 0, 1⟩⟩ :
          ComparisonResult))] ++
          [("c", (⟨[], ⟨0, 0, 0, GoFloat.fin 0, GoFloat.fin 0, GoFloat.fin 0, 0⟩, [], [], ⟨1, 0, 1⟩⟩ :
          ComparisonResult))]))).items.length = 2) ∧
    ((((⟨2, [("a", (⟨[], ⟨0, 0, 0, GoFloat.fin 0, GoFloat.fin 0, GoFloat.fin 0, 0⟩, [], [], ⟨1, 0, 1⟩⟩ :
          ComparisonResult))], ["a"]⟩ : LRUCache)).set "a"
        (⟨[], ⟨0, 0, 0, GoFloat.fin 0, GoFloat.fin 0, GoFloat.fin 0, 0⟩, [], [], ⟨1, 0, 1⟩⟩ :
          ComparisonResult)).order =
      (⟨2, [("a", (⟨[], ⟨0, 0, 0, GoFloat.fin 0, GoFloat.fin 0, GoFloat.fin 0, 0⟩, [], [], ⟨1, 0, 1⟩⟩ :
          ComparisonResult))], ["a"]⟩ : LRUCache).order) ∧
    (LRUCache.get (((⟨2, [("a", (⟨[], ⟨0, 0, 0, GoFloat.fin 0, GoFloat.fin 0, GoFloat.fin 0, 0⟩,
          [], [], ⟨1, 0, 1⟩⟩ : ComparisonResult))], ["a"]⟩ : LRUCache)).set "a"
        (⟨[], ⟨0, 0, 0, GoFloat.fin 0, GoFloat.fin 0, GoFloat.fin 0, 0⟩, [], [], ⟨1, 0, 1⟩⟩ :
          ComparisonResult)) "zz" =
      LRUCache.get ((⟨2, [("a", (⟨[], ⟨0, 0, 0, GoFloat.fin 0, GoFloat.fin 0, GoFloat.fin 0, 0⟩,
          [], [], ⟨1, 0, 1⟩⟩ : ComparisonResult))], ["a"]⟩ : LRUCache)) "zz") :=
  ⟨by decide, by decide,
   (lruCache_fifo_and_update.1 2 _ _ _ (by decide) (by decide) (by decide)).1,
   (lruCache_fifo_and_update.1 2 _ _ _ (by decide) (by decide) (by decide)).2,
   (lruCache_fifo_and_update.2 (⟨2, [("a", (⟨[], ⟨0, 0, 0, GoFloat.fin 0, GoFloat.fin 0, GoFloat.fin 0, 0⟩, [], [], ⟨1, 0, 1⟩⟩ : ComparisonResult))], ["a"]⟩ : LRUCache) "a" (⟨[], ⟨0, 0, 0, GoFloat.fin 0, GoFloat.fin 0, GoFloat.fin 0, 0⟩, [], [], ⟨1, 0, 1⟩⟩ : ComparisonResult) (⟨[], ⟨0, 0, 0, GoFloat.fin 0, GoFloat.fin 0, GoFloat.fin 0, 0⟩, [], [], ⟨1, 0, 1⟩⟩ : ComparisonResult) rfl).1,
   (lruCache_fifo_and_update.2 (⟨2, [("a", (⟨[], ⟨0, 0, 0, GoFloat.fin 0, GoFloat.fin 0, GoFloat.fin 0, 0⟩, [], [], ⟨1, 0, 1⟩⟩ : ComparisonResult))], ["a"]⟩ : LRUCache) "a" (⟨[], ⟨0, 0, 0, GoFloat.fin 0, GoFloat.fin 0, GoFloat.fin 0, 0⟩, [], [], ⟨1, 0, 1⟩⟩ : ComparisonResult) (⟨[], ⟨0, 0, 0, GoFloat.fin 0, GoFloat.fin 0, GoFloat.fin 0, 0⟩, [], [], ⟨1, 0, 1⟩⟩ : ComparisonResult) rfl).2.2.2 "zz" (by decide)⟩

theorem lru_get_set_self (c : LRUCache) (k : String) (v : ComparisonResult) :
    LRUCache.get (c.set k v) k = some v := by
  unfold LRUCache.set LRUCache.get
  by_cases hs : (assocGet c.items k).isSome
  · rw [if_pos hs]
    exact assocGet_put_self c.items k v
  · simp only [hs, Bool.false_eq_true, if_false]
    exact assocGet_put_self _ k v

/-- C2 amended: the cached comparator returns exactly the underlying
comparison whenever the cache holds no entry for the computed key, in
particular on a first call, and a repeated call with the same inputs
returns the same value; the digest preimage covers only the name,
language and time of each result, with no field separators beyond the
colons and no boundary between the suites, so distinct input pairs can
share a key and a hit can then return the result of a different
input. -/
theorem cachedCompare_miss_and_repeat (bc : BasicComparator) (cache : LRUCache)
    (baseline current : Option BenchmarkSuite) :
    (LRUCache.get cache (Comparator.cacheKey baseline current) = none →
      (Comparator.cachedCompare bc cache baseline current).1 =
        Comparator.Compare bc baseline current) ∧
    ((Comparator.cachedCompare bc
        (Comparator.cachedCompare bc cache baseline current).2 baseline current).1 =
      (Comparator.cachedCompare bc cache baseline current).1) := by
  constructor
  · intro h
    unfold Comparator.cachedCompare
    dsimp only
    rw [h]
  · cases hget : LRUCache.get cache (Comparator.cacheKey baseline current) with
    | some r =>
      have h1 : Comparator.cachedCompare bc cache baseline current = (r, cache) := by
        unfold Comparator.cachedCompare
        dsimp only
        rw [hget]
      rw [h1]
      dsimp only
      rw [h1]
    | none =>
      have h1 : Comparator.cachedCompare bc cache baseline current =
          (Comparator.Compare bc baseline current,
           cache.set (Comparator.cacheKey baseline current)
             (Comparator.Compare bc baseline current)) := by
        unfold Comparator.cachedCompare
        dsimp only
        rw [hget]
      rw [h1]
      unfold Comparator.cachedCompare
      dsimp only
      rw [lru_get_set_self]

/-- C2 amended witness: on an empty cache the first call returns the
underlying comparison, and the repeated call returns the same value. -/
theorem cachedCompare_miss_and_repeat_witness :
    (LRUCache.get (LRUCache.empty 100)
      (Comparator.cacheKey (some ⟨[⟨"sort", "go", 1000, 1, 0⟩], "go", 0⟩)
        (some ⟨[⟨"sort", "go", 1100, 1, 0⟩], "go", 0⟩)) = none) ∧
    ((Comparator.cachedCompare ⟨0.95, 1.05⟩ (LRUCache.empty 100)
        (some ⟨[⟨"sort", "go", 1000, 1, 0⟩], "go", 0⟩)
        (some ⟨[⟨"sort", "go", 1100, 1, 0⟩], "go", 0⟩)).1 =
      Comparator.Compare ⟨0.95, 1.05⟩
        (some ⟨[⟨"sort", "go", 1000, 1, 0⟩], "go", 0⟩)
        (some ⟨[⟨"sort", "go", 1100, 1, 0⟩], "go", 0⟩)) ∧
    ((Comparator.cachedCompare ⟨0.95, 1.05⟩
        (Comparator.cachedCompare ⟨0.95, 1.05⟩ (LRUCache.empty 100)
          (some ⟨[⟨"sort", "go", 1000, 1, 0⟩], "go", 0⟩)
          (some ⟨[⟨"sort", "go", 1100, 1, 0⟩], "go", 0⟩)).2
        (some ⟨[⟨"sort", "go", 1000, 1, 0⟩], "go", 0⟩)
        (some ⟨[⟨"sort", "go", 1100, 1, 0⟩], "go", 0⟩)).1 =
      (Comparator.cachedCompare ⟨0.95, 1.05⟩ (LRUCache.empty 100)
        (some ⟨[⟨"sort", "go", 1000, 1, 0⟩], "go", 0⟩)
        (some ⟨[⟨"sort", "go", 1100, 1, 0⟩], "go", 0⟩)).1) :=
  ⟨rfl,
   (cachedCompare_miss_and_repeat ⟨0.95, 1.05⟩ (LRUCache.empty 100)
      (some ⟨[⟨"sort", "go", 1000, 1, 0⟩], "go", 0⟩)
      (some ⟨[⟨"sort", "go", 1100, 1, 0⟩], "go", 0⟩)).1 rfl,
   (cachedCompare_miss_and_repeat ⟨0.95, 1.05⟩ (LRUCache.empty 100)
      (some ⟨[⟨"sort", "go", 1000, 1, 0⟩], "go", 0⟩)
      (some ⟨[⟨"sort", "go", 1100, 1, 0⟩], "go", 0⟩)).2⟩

/-- C2 counterexample: the digest preimage of (baseline [a,a], current
empty) equals that of (baseline [a], current [a]) because entries are
concatenated with no boundary between the two suites; after caching the
first pair, Compare through the cache on the second pair returns the
cached one-comparison result, while the underlying comparator returns
the empty result, so cached and recomputed results differ. -/
theorem cachedCompare_stale_hit_counterexample :
    (Comparator.cachedCompare ⟨0.95, 1.05⟩
        (Comparator.cachedCompare ⟨0.95, 1.05⟩ (LRUCache.empty 100)
          (some ⟨[⟨"a", "go", 1000, 1, 0⟩], "go", 0⟩)
          (some ⟨[⟨"a", "go", 1000, 1, 0⟩], "go", 0⟩)).2
        (some ⟨[⟨"a", "go", 1000, 1, 0⟩, ⟨"a", "go", 1000, 1, 0⟩], "go", 0⟩)
        (some ⟨[], "go", 0⟩)).1.Summary.TotalComparisons = 1 ∧
    (Comparator.Compare ⟨0.95, 1.05⟩
        (some ⟨[⟨"a", "go", 1000, 1, 0⟩, ⟨"a", "go", 1000, 1, 0⟩], "go", 0⟩)
        (some ⟨[], "go", 0⟩)).Summary.TotalComparisons = 0 ∧
    (Comparator.cachedCompare ⟨0.95, 1.05⟩
        (Comparator.cachedCompare ⟨0.95, 1.05⟩ (LRUCache.empty 100)
          (some ⟨[⟨"a", "go", 1000, 1, 0⟩], "go", 0⟩)
          (some ⟨[⟨"a", "go", 1000, 1, 0⟩], "go", 0⟩)).2
        (some ⟨[⟨"a", "go", 1000, 1, 0⟩, ⟨"a", "go", 1000, 1, 0⟩], "go", 0⟩)
        (some ⟨[], "go", 0⟩)).1 ≠
      Comparator.Compare ⟨0.95, 1.05⟩
        (some ⟨[⟨"a", "go", 1000, 1, 0⟩, ⟨"a", "go", 1000, 1, 0⟩], "go", 0⟩)
        (some ⟨[], "go", 0⟩) := by
  have h1 : (Comparator.cachedCompare ⟨0.95, 1.05⟩
      (Comparator.cachedCompare ⟨0.95, 1.05⟩ (LRUCache.empty 100)
        (some ⟨[⟨"a", "go", 1000, 1, 0⟩], "go", 0⟩)
        (some ⟨[⟨"a", "go", 1000, 1, 0⟩], "go", 0⟩)).2
      (some ⟨[⟨"a", "go", 1000, 1, 0⟩, ⟨"a", "go", 1000, 1, 0⟩], "go", 0⟩)
      (some ⟨[], "go", 0⟩)).1.Summary.TotalComparisons = 1 := rfl
  have h2 : (Comparator.Compare ⟨0.95, 1.05⟩
      (some ⟨[⟨"a", "go", 1000, 1, 0⟩, ⟨"a", "go", 1000, 1, 0⟩], "go", 0⟩)
      (some ⟨[], "go", 0⟩)).Summary.TotalComparisons = 0 := rfl
  refine ⟨h1, h2, fun he => ?_⟩
  rw [he, h2] at h1
  exact absurd h1 (by decide)

theorem calculateForecastStdErr_nonneg (history : List HistoricalComparison) :
    0 ≤ Analyzer.calculateForecastStdErr history := by
  unfold Analyzer.calculateForecastStdErr
  split
  · exact le_refl 0
  · exact ratSqrt_nonneg _

/-- C4 amended: every forecast has a non-negative lower bound and a
predicted time at most the upper bound, and the lower bound is at most
the predicted time whenever the predicted time is non-negative; a
negative linear projection is clamped from below by 0, which then
exceeds the predicted time itself. -/
theorem forecastPerformance_bounds (bta : BasicTrendAnalyzer)
    (history : List HistoricalComparison) (periods : Int) (f : Forecast)
    (hf : f ∈ Analyzer.ForecastPerformance bta history periods) :
    0 ≤ f.LowerBound ∧ f.PredictedTime ≤ f.UpperBound ∧
    (0 ≤ f.PredictedTime → f.LowerBound ≤ f.PredictedTime) := by
  unfold Analyzer.ForecastPerformance at hf
  split at hf
  · simp at hf
  · simp only [List.mem_flatten, List.mem_map] at hf
    rcases hf with ⟨lf, ⟨k, hk, hlf⟩, hmem⟩
    rw [← hlf] at hmem
    unfold Analyzer.forecastGroup at hmem
    split at hmem
    · simp at hmem
    · split at hmem
      · simp at hmem
      · simp only [List.mem_map] at hmem
        rcases hmem with ⟨i, hi, hfeq⟩
        subst hfeq
        have hM : 0 ≤ (1.96 : ℚ) *
            Analyzer.calculateForecastStdErr
              ((Analyzer.sortByTime history).filter (fun c => Analyzer.groupKey c = k)) *
            ratSqrt (1 + 1 /
              (((Analyzer.sortByTime history).filter (fun c => Analyzer.groupKey c = k)).length : ℚ)) :=
          mul_nonneg (mul_nonneg (by norm_num) (calculateForecastStdErr_nonneg _))
            (ratSqrt_nonneg _)
        refine ⟨?_, ?_, ?_⟩
        · dsimp only
          split
          · exact le_refl 0
          · next hcond => linarith [not_lt.mp hcond]
        · dsimp only
          linarith [hM]
        · intro hp
          dsimp only at hp ⊢
          split
          · exact hp
          · linarith [hM]

/-- C4 counterexample: a sharply decreasing series projects a negative
predicted time for the next period; the lower bound is clamped at
zero, so lowerBound is strictly greater than predictedTime and the
stated bound chain fails. -/
theorem forecast_lower_bound_counterexample :
    (Analyzer.ForecastPerformance ⟨3, 2, 0.95⟩
      [⟨1, "a", "go", 1000, 1000, 0, false, "", "", "", 0⟩,
       ⟨2, "a", "go", 1000, 100, 0, false, "", "", "", 86400000000000⟩] 1).map
      (fun f => decide (f.LowerBound ≤ f.PredictedTime)) = [false] := by
  have h1 : (0 : ℚ) ≤ ratSqrt 405000 := ratSqrt_nonneg _
  have h2 : (0 : ℚ) ≤ ratSqrt (3 / 2) := ratSqrt_nonneg _
  have hM : (0 : ℚ) ≤ 49 / 25 * ratSqrt 405000 * ratSqrt (3 / 2) :=
    mul_nonneg (mul_nonneg (by norm_num) h1) h2
  norm_num [Analyzer.ForecastPerformance, Analyzer.sortByTime, Analyzer.insertByTime,
    Analyzer.groupKeys, Analyzer.groupKey, Analyzer.forecastGroup, Analyzer.CalculateTrend,
    Analyzer.trendDenominator, Analyzer.daysSince, Analyzer.calculateForecastStdErr,
    Analyzer.calculateMean, Analyzer.goTrunc, List.range_succ]
  rw [if_pos (by linarith)]
  norm_num

/-- C4 witness: a mildly increasing zero-variance series keeps the
predicted time non-negative, and the produced forecast satisfies all
three amended bounds. -/
theorem forecastPerformance_bounds_witness :
    ((⟨"a", "go", 1, 1000, 1000, 1000, 0.95⟩ : Forecast) ∈
      Analyzer.ForecastPerformance ⟨3, 2, 0.95⟩
        [⟨1, "a", "go", 1000, 1000, 0, false, "", "", "", 0⟩,
         ⟨2, "a", "go", 1000, 1000, 0, false, "", "", "", 86400000000000⟩] 1) ∧
    ((0 : ℚ) ≤ (⟨"a", "go", 1, 1000, 1000, 1000, 0.95⟩ : Forecast).LowerBound ∧
      (⟨"a", "go", 1, 1000, 1000, 1000, 0.95⟩ : Forecast).PredictedTime ≤
        (⟨"a", "go", 1, 1000, 1000, 1000, 0.95⟩ : Forecast).UpperBound ∧
      ((0 : ℚ) ≤ (⟨"a", "go", 1, 1000, 1000, 1000, 0.95⟩ : Forecast).PredictedTime →
        (⟨"a", "go", 1, 1000, 1000, 1000, 0.95⟩ : Forecast).LowerBound ≤
          (⟨"a", "go", 1, 1000, 1000, 1000, 0.95⟩ : Forecast).PredictedTime)) :=
  ⟨by
    norm_num [Analyzer.ForecastPerformance, Analyzer.sortByTime, Analyzer.insertByTime,
      Analyzer.groupKeys, Analyzer.groupKey, Analyzer.forecastGroup, Analyzer.CalculateTrend,
      Analyzer.trendDenominator, Analyzer.daysSince, Analyzer.calculateForecastStdErr,
      Analyzer.calculateMean, ratSqrt, Analyzer.goTrunc, List.range_succ],
   forecastPerformance_bounds ⟨3, 2, 0.95⟩
     [⟨1, "a", "go", 1000, 1000, 0, false, "", "", "", 0⟩,
      ⟨2, "a", "go", 1000, 1000, 0, false, "", "", "", 86400000000000⟩] 1
     ⟨"a", "go", 1, 1000, 1000, 1000, 0.95⟩
     (by
       norm_num [Analyzer.ForecastPerformance, Analyzer.sortByTime, Analyzer.insertByTime,
         Analyzer.groupKeys, Analyzer.groupKey, Analyzer.forecastGroup, Analyzer.CalculateTrend,
         Analyzer.trendDenominator, Analyzer.daysSince, Analyzer.calculateForecastStdErr,
         Analyzer.calculateMean, ratSqrt, Analyzer.goTrunc, List.range_succ])⟩

theorem length_insertByTime (x : HistoricalComparison) (l : List HistoricalComparison) :
    (Analyzer.insertByTime x l).length = l.length + 1 := by
  induction l with
  | nil => rfl
  | cons y ys ih =>
    unfold Analyzer.insertByTime
    split
    · simp
    · simp only [List.length_cons, ih]

theorem length_sortByTime (l : List HistoricalComparison) :
    (Analyzer.sortByTime l).length = l.length := by
  induction l with
  | nil => rfl
  | cons x xs ih =>
    unfold Analyzer.sortByTime at ih ⊢
    rw [List.foldr_cons, length_insertByTime, ih, List.length_cons]

/-- C9 amended: CalculateTrend fails with the insufficient-data error
exactly when the series length is below minDataPoints, with the
no-historical-data error exactly when the series is empty (and not
caught by the previous check), and with the no-variance error exactly
when the absolute x-denominator n * sumX2 - sumX^2 falls below the
1e-10 tolerance, which holds in particular when all records share one
timestamp but also for series whose timestamps differ by a small
enough amount; on every other input it returns a TrendResult. -/
theorem calculateTrend_error_characterization (history : List HistoricalComparison)
    (minDataPoints : Nat) :
    ((∃ t, Analyzer.CalculateTrend history minDataPoints = .ok t) ↔
      ¬(history.length < minDataPoints) ∧ history ≠ [] ∧
      ¬(|Analyzer.trendDenominator (Analyzer.sortByTime history)| < (1e-10 : ℚ))) ∧
    (Analyzer.CalculateTrend history minDataPoints = .error .noVarianceX ↔
      ¬(history.length < minDataPoints) ∧ history ≠ [] ∧
      |Analyzer.trendDenominator (Analyzer.sortByTime history)| < (1e-10 : ℚ)) ∧
    (Analyzer.CalculateTrend history minDataPoints = .error .insufficientData ↔
      history.length < minDataPoints) ∧
    (Analyzer.CalculateTrend history minDataPoints = .error .noHistoricalData ↔
      ¬(history.length < minDataPoints) ∧ history = []) := by
  unfold Analyzer.CalculateTrend
  by_cases hlt : history.length < minDataPoints
  · rw [if_pos hlt]
    simp [hlt]
  · rw [if_neg hlt]
    split
    · next heq =>
      have hh : history = [] := by
        have := length_sortByTime history
        rw [heq] at this
        exact List.length_eq_zero.mp this.symm
      simp only [hh, List.length_nil] at hlt ⊢
      simp [hlt]
    · next s0 rest heq =>
      have hne : history ≠ [] := by
        intro he
        subst he
        simp [Analyzer.sortByTime] at heq
      rw [heq]
      dsimp only
      by_cases hden : |Analyzer.trendDenominator (s0 :: rest)| < (1e-10 : ℚ)
      · rw [if_pos hden]
        simp [hlt, hne, hden]
      · rw [if_neg hden]
        simp [hlt, hne, hden]

/-- C9 counterexample: two records whose timestamps differ by 0.1
seconds have a day-scale x-variance of about 1.34e-12, inside the
1e-10 tolerance, so CalculateTrend reports the no-variance error even
though the records do not share the same timestamp and the length is
sufficient. -/
theorem calculateTrend_tolerance_counterexample :
    Analyzer.CalculateTrend
      [⟨1, "a", "go", 1000, 1000, 0, false, "", "", "", 0⟩,
       ⟨2, "a", "go", 1000, 1100, 0, false, "", "", "", 100000000⟩] 2 =
      .error .noVarianceX ∧
    (⟨1, "a", "go", 1000, 1000, 0, false, "", "", "", 0⟩ :
      HistoricalComparison).CreatedAt ≠
      (⟨2, "a", "go", 1000, 1100, 0, false, "", "", "", 100000000⟩ :
        HistoricalComparison).CreatedAt ∧
    ¬(([⟨1, "a", "go", 1000, 1000, 0, false, "", "", "", 0⟩,
        ⟨2, "a", "go", 1000, 1100, 0, false, "", "", "", 100000000⟩] :
        List HistoricalComparison).length < 2) := by
  refine ⟨?_, by decide, by decide⟩
  norm_num [Analyzer.CalculateTrend, Analyzer.sortByTime, Analyzer.insertByTime,
    Analyzer.trendDenominator, Analyzer.daysSince]
  intro hcon
  have habs : |(1 : ℚ) / 746496000000| = 1 / 746496000000 := abs_of_pos (by norm_num)
  rw [habs] at hcon
  norm_num at hcon
